import Mathlib

/-!
# Stopwatch: a named-interval timing registry

A shallow embedding of `Stopwatch.cpp`.  The class keeps three static members:
the map `records_of` from a performance name to its `PerformanceData`, the flag
`active`, and the `mode` that selects the time source.

Modelling decisions.

* `long double` values are exact rationals (`ℚ`): rounding, infinities and NaN
  are outside the model.  The only place where the program can produce a
  non-finite value from finite ones is the average printed by `report`
  (a division by the number of stops), so what the stream formats is a
  `LongDouble`: a finite number, an infinity or NaN.
* The counter `stops` is an unbounded `Int`.
* `std::map<string, PerformanceData>` is an association list; `find`, `insert`
  and the write through the reference returned by `find` are modelled by
  `Registry.find`, `Registry.insert` and `Registry.store`.
* A C++ `throw` keeps every mutation made before it, so each operation returns
  the state it leaves behind together with the exception, if any.
* The readings of the operating system clocks at the moment of a call are an
  explicit argument (`Clock`).  The non-Windows branch of `take_time` is the
  one embedded.
* An output stream is the text written to it so far.
-/

/-- The enumeration `StopwatchMode`. -/
inductive StopwatchMode where
  | NONE
  | CPU_TIME
  | REAL_TIME
deriving DecidableEq, Repr

/-- The exception class thrown by the stopwatch; it carries its message. -/
structure StopwatchException where
  error : String
deriving DecidableEq, Repr

/-- The exception thrown by `take_time` when the mode is `NONE` (the spec's `NotInitialized`). -/
def NotInitialized : StopwatchException :=
  ⟨"Clock not initialized to a time taking mode!"⟩

/-- The exception thrown when a name has no record (the spec's `NotFound`). -/
def NotFound : StopwatchException :=
  ⟨"Performance not initialized."⟩

/-- What the operating system answers at the moment of a call: the value of
`clock()` and the `timeval` filled by `gettimeofday`. -/
structure Clock where
  clock : Int
  tv_sec : Int
  tv_usec : Int
deriving DecidableEq, Repr

/-- A `long double` as an output stream receives it: a finite number, or one of
the values a division by zero yields. -/
inductive LongDouble where
  | finite (x : ℚ)
  | infinite (negative : Bool)
  | nan
deriving DecidableEq

/-- The struct `Stopwatch::PerformanceData`. -/
structure Stopwatch.PerformanceData where
  clock_start : ℚ
  total_time : ℚ
  min_time : ℚ
  max_time : ℚ
  stops : Int
deriving DecidableEq

/-- Modelled from the spec: the constructor `PerformanceData()` is declared in
`Stopwatch.h`, which is not among the sources; a fresh record has every field
zero (a zero `min_time` means "unset", `stop_count` counts completed stops). -/
def Stopwatch.PerformanceData.new : Stopwatch.PerformanceData :=
  ⟨0, 0, 0, 0, 0⟩

/-- The map from names to records, in iteration order. -/
abbrev Registry := List (String × Stopwatch.PerformanceData)

/-- The static members of the class `Stopwatch`. -/
structure Stopwatch where
  records_of : Registry
  active : Bool
  mode : StopwatchMode
deriving DecidableEq

/-- What a call leaves behind: the state, and the exception it threw, if any. -/
structure Outcome where
  sw : Stopwatch
  thrown : Option StopwatchException
deriving DecidableEq

namespace Registry

/-- The lookup `records_of->find(name)`: `none` stands for `records_of->end()`. -/
def find : Registry → String → Option Stopwatch.PerformanceData
  | [], _ => none
  | (k, v) :: rest, name => if k = name then some v else find rest name

/-- Puts a new entry at its place in ascending key order. -/
def place : Registry → String → Stopwatch.PerformanceData → Registry
  | [], name, v => [(name, v)]
  | (k, w) :: rest, name, v =>
    if name < k then (name, v) :: (k, w) :: rest else (k, w) :: place rest name v

/-- The call `records_of->insert(make_pair(name, v))`: nothing happens when the
key is already there. -/
def insert (m : Registry) (name : String) (v : Stopwatch.PerformanceData) : Registry :=
  match find m name with
  | some _ => m
  | none => place m name v

/-- The write through the reference `records_of->find(name)->second`. -/
def store : Registry → String → Stopwatch.PerformanceData → Registry
  | [], _, _ => []
  | (k, w) :: rest, name, v =>
    if k = name then (k, v) :: rest else (k, w) :: store rest name v

/-- The keys met by an iteration from `begin()` to `end()`. -/
def names (m : Registry) : List String :=
  m.map Prod.fst

/-- The registry after the records of the given keys have been zeroed in turn,
as the loop of `reset_all` does. -/
def zeroed (m : Registry) (ks : List String) : Registry :=
  ks.foldl (fun acc k => store acc k ⟨0, 0, 0, 0, 0⟩) m

end Registry

namespace Stopwatch

/-- The function `Stopwatch::init`. -/
def init (sw : Stopwatch) (new_mode : StopwatchMode) : Stopwatch :=
  { sw with mode := new_mode }

/-- The wall-clock branch of `take_time`: microseconds converted to seconds,
plus the seconds part. -/
def real_time (clk : Clock) : ℚ :=
  (clk.tv_usec : ℚ) / 1000000 + (clk.tv_sec : ℚ)

/-- The function `Stopwatch::take_time`. -/
def take_time (mode : StopwatchMode) (clk : Clock) : Except StopwatchException ℚ :=
  if mode = StopwatchMode.CPU_TIME then
    Except.ok (clk.clock : ℚ)
  else if mode = StopwatchMode.REAL_TIME then
    Except.ok (real_time clk)
  else
    Except.error NotInitialized

/-- The function `Stopwatch::start`.  The insertion comes first and is kept when
`take_time` throws.  The `none` branch stands for dereferencing `end()`; it is
never taken, since the key is found after `insert` (`Registry.find_insert_ne_none`). -/
def start (sw : Stopwatch) (clk : Clock) (perf_name : String) : Outcome :=
  if !sw.active then ⟨sw, none⟩ else
  let inserted : Stopwatch :=
    { sw with records_of := Registry.insert sw.records_of perf_name PerformanceData.new }
  match Registry.find inserted.records_of perf_name with
  | none => ⟨inserted, none⟩
  | some perf_info =>
    match take_time inserted.mode clk with
    | Except.error e => ⟨inserted, some e⟩
    | Except.ok now =>
      ⟨{ inserted with
          records_of := Registry.store inserted.records_of perf_name
            { perf_info with clock_start := now } }, none⟩

/-- The function `Stopwatch::stop`; `cps` is the constant `CLOCKS_PER_SEC`. -/
def stop (cps : ℚ) (sw : Stopwatch) (clk : Clock) (perf_name : String) : Outcome :=
  if !sw.active then ⟨sw, none⟩ else
  match take_time sw.mode clk with
  | Except.error e => ⟨sw, some e⟩
  | Except.ok clock_end =>
    match Registry.find sw.records_of perf_name with
    | none => ⟨sw, some NotFound⟩
    | some perf_info =>
      let p1 : PerformanceData := { perf_info with stops := perf_info.stops + 1 }
      let lapse0 : ℚ := clock_end - p1.clock_start
      let lapse : ℚ := if sw.mode = StopwatchMode.CPU_TIME then lapse0 / cps else lapse0
      let p2 : PerformanceData :=
        if lapse ≥ p1.max_time then { p1 with max_time := lapse } else p1
      let p3 : PerformanceData :=
        if lapse ≤ p2.min_time ∨ p2.min_time = 0 then { p2 with min_time := lapse } else p2
      let p4 : PerformanceData := { p3 with total_time := p3.total_time + lapse }
      ⟨{ sw with records_of := Registry.store sw.records_of perf_name p4 }, none⟩

/-- The function `Stopwatch::pause`: the end reading is `clock()`, whatever the mode. -/
def pause (sw : Stopwatch) (clk : Clock) (perf_name : String) : Outcome :=
  if !sw.active then ⟨sw, none⟩ else
  let clock_end : ℚ := (clk.clock : ℚ)
  match Registry.find sw.records_of perf_name with
  | none => ⟨sw, some NotFound⟩
  | some perf_info =>
    let lapse : ℚ := clock_end - perf_info.clock_start
    ⟨{ sw with
        records_of := Registry.store sw.records_of perf_name
          { perf_info with total_time := perf_info.total_time + lapse } }, none⟩

/-- The function `Stopwatch::reset`. -/
def reset (sw : Stopwatch) (perf_name : String) : Outcome :=
  if !sw.active then ⟨sw, none⟩ else
  match Registry.find sw.records_of perf_name with
  | none => ⟨sw, some NotFound⟩
  | some perf_info =>
    ⟨{ sw with
        records_of := Registry.store sw.records_of perf_name
          { perf_info with
            clock_start := 0, total_time := 0, min_time := 0, max_time := 0, stops := 0 } },
      none⟩

/-- The loop of `reset_all` over the keys still to visit; an exception leaves the loop. -/
def reset_all_loop (sw : Stopwatch) : List String → Outcome
  | [] => ⟨sw, none⟩
  | k :: ks =>
    match reset sw k with
    | ⟨sw1, none⟩ => reset_all_loop sw1 ks
    | ⟨sw1, some e⟩ => ⟨sw1, some e⟩

/-- The function `Stopwatch::reset_all`. -/
def reset_all (sw : Stopwatch) : Outcome :=
  if !sw.active then ⟨sw, none⟩ else
  reset_all_loop sw (Registry.names sw.records_of)

/-- The function `Stopwatch::turn_on`; the second component is the text sent to `std::cout`. -/
def turn_on (sw : Stopwatch) : Stopwatch × String :=
  ({ sw with active := true }, "Stopwatch active.\n")

/-- The function `Stopwatch::turn_off`; the second component is the text sent to `std::cout`. -/
def turn_off (sw : Stopwatch) : Stopwatch × String :=
  ({ sw with active := false }, "Stopwatch inactive.\n")

/-- The loop of `report` that builds the bar: one `=` per byte of the name. -/
def bar : Nat → String
  | 0 => ""
  | n + 1 => bar n ++ "="

/-- The quotient `total_time / (double) stops`: a division by zero gives NaN
for a zero dividend and an infinity with the sign of the dividend otherwise. -/
def average (total_time : ℚ) (stops : Int) : LongDouble :=
  if stops = 0 then
    if total_time = 0 then LongDouble.nan else LongDouble.infinite (decide (total_time < 0))
  else LongDouble.finite (total_time / (stops : ℚ))

/-- The function `Stopwatch::report`.  `render` is the stream's formatting of a
`long double`; `output` is the text already in the stream, and the second
component is the text in it afterwards. -/
def report (render : LongDouble → String) (sw : Stopwatch) (perf_name : String)
    (output : String) : Outcome × String :=
  if !sw.active then (⟨sw, none⟩, output) else
  match Registry.find sw.records_of perf_name with
  | none => (⟨sw, some NotFound⟩, output)
  | some perf_info =>
    let b := bar perf_name.utf8ByteSize
    let o1 := output ++ "\n"
    let o2 := o1 ++ "======================" ++ b ++ "\n"
    let o3 := o2 ++ "Tracking performance: " ++ perf_name ++ "\n"
    let o4 := o3 ++ "======================" ++ b ++ "\n"
    let o5 := o4 ++ "  *  Avg. time "
      ++ render (average perf_info.total_time perf_info.stops) ++ " sec" ++ "\n"
    let o6 := o5 ++ "  *  Min. time " ++ render (LongDouble.finite perf_info.min_time) ++ " sec" ++ "\n"
    let o7 := o6 ++ "  *  Max. time " ++ render (LongDouble.finite perf_info.max_time) ++ " sec" ++ "\n"
    let o8 := o7 ++ "  *  Tot. time " ++ render (LongDouble.finite perf_info.total_time) ++ " sec" ++ "\n"
    let stops := toString perf_info.stops
    let o9 := o8 ++ "  *  Stops " ++ stops ++ "\n"
    (⟨sw, none⟩, o9 ++ "\n")

/-- The loop of `report_all` over the keys still to visit; an exception leaves the loop. -/
def report_all_loop (render : LongDouble → String) (sw : Stopwatch) :
    List String → String → Outcome × String
  | [], output => (⟨sw, none⟩, output)
  | k :: ks, output =>
    match report render sw k output with
    | (⟨sw1, none⟩, out1) => report_all_loop render sw1 ks out1
    | (⟨sw1, some e⟩, out1) => (⟨sw1, some e⟩, out1)

/-- The function `Stopwatch::report_all`. -/
def report_all (render : LongDouble → String) (sw : Stopwatch) (output : String) :
    Outcome × String :=
  if !sw.active then (⟨sw, none⟩, output) else
  report_all_loop render sw (Registry.names sw.records_of) output

/-- The record `stop` writes back, as a function of the record found and the lapse. -/
def stopped (r : PerformanceData) (lapse : ℚ) : PerformanceData :=
  ⟨r.clock_start, r.total_time + lapse,
    if lapse ≤ r.min_time ∨ r.min_time = 0 then lapse else r.min_time,
    if lapse ≥ r.max_time then lapse else r.max_time,
    r.stops + 1⟩

/-- A caller that runs `start(name); stop(name);` once per pair of clock
readings, in sequence, and is left by the first exception. -/
def start_stop_pairs (cps : ℚ) (name : String) : Stopwatch → List (Clock × Clock) → Outcome
  | sw, [] => ⟨sw, none⟩
  | sw, (c0, c1) :: rest =>
    match start sw c0 name with
    | ⟨sw1, some e⟩ => ⟨sw1, some e⟩
    | ⟨sw1, none⟩ =>
      match stop cps sw1 c1 name with
      | ⟨sw2, some e⟩ => ⟨sw2, some e⟩
      | ⟨sw2, none⟩ => start_stop_pairs cps name sw2 rest

/-- The lapse of one start/stop pair in REAL_TIME: stop reading minus start reading. -/
def pair_lapse (p : Clock × Clock) : ℚ :=
  real_time p.2 - real_time p.1

/-- The static members as their initialisers leave them: an empty map, the
clock active, the mode `NONE`. -/
def initial : Stopwatch :=
  ⟨[], true, StopwatchMode.NONE⟩

/-- One call of a state-changing member function, with the clock readings at
the moment of the call where the function takes the time. -/
inductive Call where
  | init (new_mode : StopwatchMode)
  | turn_on
  | turn_off
  | start (clk : Clock) (perf_name : String)
  | stop (clk : Clock) (perf_name : String)
  | pause (clk : Clock) (perf_name : String)
  | reset (perf_name : String)
  | reset_all

/-- The state a call leaves behind, whether it returns or throws. -/
def Call.apply (cps : ℚ) (sw : Stopwatch) : Call → Stopwatch
  | Call.init new_mode => Stopwatch.init sw new_mode
  | Call.turn_on => (Stopwatch.turn_on sw).1
  | Call.turn_off => (Stopwatch.turn_off sw).1
  | Call.start clk perf_name => (Stopwatch.start sw clk perf_name).sw
  | Call.stop clk perf_name => (Stopwatch.stop cps sw clk perf_name).sw
  | Call.pause clk perf_name => (Stopwatch.pause sw clk perf_name).sw
  | Call.reset perf_name => (Stopwatch.reset sw perf_name).sw
  | Call.reset_all => (Stopwatch.reset_all sw).sw

/-- A caller that makes the calls one after the other and catches every exception. -/
def run (cps : ℚ) (sw : Stopwatch) (calls : List Call) : Stopwatch :=
  calls.foldl (Call.apply cps) sw

/-- The text `report(name, sink)` appends to the sink. -/
def report_text (render : LongDouble → String) (sw : Stopwatch) (perf_name : String) : String :=
  (report render sw perf_name "").2

end Stopwatch

/-! ## The registry as a map -/

namespace Registry

theorem find_store_same (m : Registry) (name : String) (v w : Stopwatch.PerformanceData)
    (h : find m name = some w) : find (store m name v) name = some v := by
  induction m with
  | nil => simp [find] at h
  | cons hd tl ih =>
    obtain ⟨k, u⟩ := hd
    by_cases hk : k = name
    · simp [store, find, hk]
    · simp [find, hk] at h
      simp [store, find, hk, ih h]

theorem find_store_other (m : Registry) (name other : String) (v : Stopwatch.PerformanceData)
    (h : other ≠ name) : find (store m name v) other = find m other := by
  induction m with
  | nil => simp [store]
  | cons hd tl ih =>
    obtain ⟨k, u⟩ := hd
    by_cases hk : k = name
    · subst hk
      have : ¬ k = other := fun e => h e.symm
      simp [store, find, this]
    · simp [store, find, hk, ih]

theorem names_store (m : Registry) (name : String) (v : Stopwatch.PerformanceData) :
    names (store m name v) = names m := by
  induction m with
  | nil => simp [store]
  | cons hd tl ih =>
    obtain ⟨k, u⟩ := hd
    by_cases hk : k = name
    · simp [store, names, hk]
    · simp only [names] at ih
      simp [store, names, hk, ih]

theorem find_place_same (m : Registry) (name : String) (v : Stopwatch.PerformanceData)
    (h : find m name = none) : find (place m name v) name = some v := by
  induction m with
  | nil => simp [place, find]
  | cons hd tl ih =>
    obtain ⟨k, u⟩ := hd
    by_cases hk : k = name
    · simp [find, hk] at h
    · simp [find, hk] at h
      by_cases hlt : name < k
      · simp [place, find, hlt]
      · simp [place, find, hlt, hk, ih h]

theorem find_place_other (m : Registry) (name other : String) (v : Stopwatch.PerformanceData)
    (h : other ≠ name) : find (place m name v) other = find m other := by
  have hne : ¬ name = other := fun e => h e.symm
  induction m with
  | nil => simp [place, find, hne]
  | cons hd tl ih =>
    obtain ⟨k, u⟩ := hd
    by_cases hlt : name < k
    · simp [place, find, hlt, hne]
    · simp [place, find, hlt, ih]

theorem find_insert_absent (m : Registry) (name : String) (v : Stopwatch.PerformanceData)
    (h : find m name = none) : find (insert m name v) name = some v := by
  simp [insert, h, find_place_same]

/-- After `insert` the key is always found, so the dereference of
`find(name)->second` in `start` never meets `end()`. -/
theorem find_insert_ne_none (m : Registry) (name : String) (v : Stopwatch.PerformanceData) :
    find (insert m name v) name ≠ none := by
  cases h : find m name with
  | none => simp [find_insert_absent m name v h]
  | some w => simp [insert, h]

theorem find_insert_present (m : Registry) (name : String) (v w : Stopwatch.PerformanceData)
    (h : find m name = some w) : insert m name v = m := by
  simp [insert, h]

end Registry

namespace Stopwatch

@[simp] theorem real_ne_cpu : (StopwatchMode.REAL_TIME = StopwatchMode.CPU_TIME) = False := by
  decide

@[simp] theorem none_ne_cpu : (StopwatchMode.NONE = StopwatchMode.CPU_TIME) = False := by
  decide

@[simp] theorem none_ne_real : (StopwatchMode.NONE = StopwatchMode.REAL_TIME) = False := by
  decide

@[simp] theorem cpu_ne_real : (StopwatchMode.CPU_TIME = StopwatchMode.REAL_TIME) = False := by
  decide

theorem notFound_ne_notInitialized : NotFound ≠ NotInitialized := by
  decide

theorem stop_eq (cps : ℚ) (sw : Stopwatch) (clk : Clock) (name : String)
    (r : PerformanceData) (t : ℚ)
    (hactive : sw.active = true) (ht : take_time sw.mode clk = Except.ok t)
    (hrec : Registry.find sw.records_of name = some r) :
    stop cps sw clk name =
      ⟨{ sw with
          records_of := Registry.store sw.records_of name
            (stopped r (if sw.mode = StopwatchMode.CPU_TIME then (t - r.clock_start) / cps
              else t - r.clock_start)) }, none⟩ := by
  simp only [stop, hactive, ht, hrec, stopped]
  simp only [Bool.not_true, Bool.false_eq_true, if_false]
  congr 3
  split_ifs <;> rfl

theorem start_eq_present (sw : Stopwatch) (clk : Clock) (name : String)
    (r : PerformanceData) (t : ℚ)
    (hactive : sw.active = true) (ht : take_time sw.mode clk = Except.ok t)
    (hrec : Registry.find sw.records_of name = some r) :
    start sw clk name =
      ⟨{ sw with
          records_of := Registry.store sw.records_of name
            { r with clock_start := t } }, none⟩ := by
  simp [start, hactive, Registry.insert, hrec, ht]

theorem start_eq_absent (sw : Stopwatch) (clk : Clock) (name : String) (t : ℚ)
    (hactive : sw.active = true) (ht : take_time sw.mode clk = Except.ok t)
    (hrec : Registry.find sw.records_of name = none) :
    start sw clk name =
      ⟨{ sw with
          records_of := Registry.store
            (Registry.place sw.records_of name PerformanceData.new) name
            { PerformanceData.new with clock_start := t } }, none⟩ := by
  simp [start, hactive, Registry.insert, hrec, ht, Registry.find_place_same]

/-- C1: with the registry active, the mode CPU_TIME or REAL_TIME and a record
`(s, T, m, M, c)` present for `name`, `stop(name)` at the clock reading `t`
returns normally and leaves for `name` the record with `clock_start = s`,
`total_time = T + lapse`, `min_time = lapse` if `m = 0` or `lapse ≤ m` and `m`
otherwise, `max_time = max M lapse`, `stops = c + 1`, where `lapse = t - s` in
REAL_TIME and `(t - s) / CLOCKS_PER_SEC` in CPU_TIME. -/
theorem stop_update_rule (cps : ℚ) (sw : Stopwatch) (clk : Clock) (name : String)
    (s T m M : ℚ) (c : Int) (t : ℚ)
    (hactive : sw.active = true)
    (hmode : sw.mode = StopwatchMode.CPU_TIME ∨ sw.mode = StopwatchMode.REAL_TIME)
    (ht : take_time sw.mode clk = Except.ok t)
    (hrec : Registry.find sw.records_of name = some ⟨s, T, m, M, c⟩) :
    (stop cps sw clk name).thrown = none ∧
    Registry.find (stop cps sw clk name).sw.records_of name =
      some ⟨s,
        T + (if sw.mode = StopwatchMode.REAL_TIME then t - s else (t - s) / cps),
        if m = 0 ∨ (if sw.mode = StopwatchMode.REAL_TIME then t - s else (t - s) / cps) ≤ m
          then (if sw.mode = StopwatchMode.REAL_TIME then t - s else (t - s) / cps) else m,
        max M (if sw.mode = StopwatchMode.REAL_TIME then t - s else (t - s) / cps),
        c + 1⟩ := by
  have hlapse : (if sw.mode = StopwatchMode.CPU_TIME then (t - s) / cps else t - s)
      = (if sw.mode = StopwatchMode.REAL_TIME then t - s else (t - s) / cps) := by
    rcases hmode with h | h <;> simp [h]
  rw [stop_eq cps sw clk name _ t hactive ht hrec]
  simp only [hlapse]
  generalize (if sw.mode = StopwatchMode.REAL_TIME then t - s else (t - s) / cps) = lapse
  refine ⟨trivial, ?_⟩
  rw [Registry.find_store_same _ _ _ _ hrec]
  by_cases h1 : M ≤ lapse <;> by_cases h2 : lapse ≤ m <;> by_cases h3 : m = 0 <;>
    simp [stopped, h1, h2, h3, max_def]

/-- Witness of C1: a record `(10, 5, 2, 3, 4)` stopped in REAL_TIME at the
reading 12.5 becomes `(10, 7.5, 2, 3, 5)`. -/
theorem stop_update_rule_witness :
    Registry.find
      (stop 1000000 ⟨[("a", ⟨10, 5, 2, 3, 4⟩)], true, StopwatchMode.REAL_TIME⟩
        ⟨0, 12, 500000⟩ "a").sw.records_of "a"
      = some ⟨10, 15 / 2, 2, 3, 5⟩ := by
  have h := (stop_update_rule 1000000
    ⟨[("a", ⟨10, 5, 2, 3, 4⟩)], true, StopwatchMode.REAL_TIME⟩ ⟨0, 12, 500000⟩ "a"
    10 5 2 3 4 (25 / 2) rfl (Or.inr rfl)
    (by norm_num [take_time, real_time]) (by simp [Registry.find])).2
  rw [h]
  norm_num

theorem foldl_min_spec (l : List ℚ) (a : ℚ) :
    l.foldl min a ∈ a :: l ∧ ∀ x ∈ a :: l, l.foldl min a ≤ x := by
  induction l generalizing a with
  | nil => simp
  | cons b l ih =>
    obtain ⟨hmem, hle⟩ := ih (min a b)
    constructor
    · rcases List.mem_cons.mp hmem with h | h
      · rw [List.foldl_cons, h]
        rcases min_choice a b with e | e <;> simp [e]
      · simp [List.foldl_cons, h]
    · intro x hx
      have hab : l.foldl min (min a b) ≤ min a b := hle _ (List.mem_cons_self _ _)
      rcases List.mem_cons.mp hx with h | h
      · rw [List.foldl_cons, h]
        exact le_trans hab (min_le_left _ _)
      · rcases List.mem_cons.mp h with h1 | h1
        · rw [List.foldl_cons, h1]
          exact le_trans hab (min_le_right _ _)
        · exact hle x (List.mem_cons_of_mem _ h1)

theorem foldl_max_spec (l : List ℚ) (a : ℚ) :
    l.foldl max a ∈ a :: l ∧ ∀ x ∈ a :: l, x ≤ l.foldl max a := by
  induction l generalizing a with
  | nil => simp
  | cons b l ih =>
    obtain ⟨hmem, hle⟩ := ih (max a b)
    constructor
    · rcases List.mem_cons.mp hmem with h | h
      · rw [List.foldl_cons, h]
        rcases max_choice a b with e | e <;> simp [e]
      · simp [List.foldl_cons, h]
    · intro x hx
      have hab : max a b ≤ l.foldl max (max a b) := hle _ (List.mem_cons_self _ _)
      rcases List.mem_cons.mp hx with h | h
      · rw [List.foldl_cons, h]
        exact le_trans (le_max_left _ _) hab
      · rcases List.mem_cons.mp h with h1 | h1
        · rw [List.foldl_cons, h1]
          exact le_trans (le_max_right _ _) hab
        · exact hle x (List.mem_cons_of_mem _ h1)

/-- One `start` followed by one `stop` in REAL_TIME: both return normally, the
flags are kept, and the record of the name is the stopped version of the one
found (or of a fresh one), restarted at the first reading. -/
theorem start_stop_real (cps : ℚ) (sw : Stopwatch) (name : String) (c0 c1 : Clock)
    (hactive : sw.active = true) (hmode : sw.mode = StopwatchMode.REAL_TIME) :
    ∃ sw1 sw2, start sw c0 name = ⟨sw1, none⟩ ∧ stop cps sw1 c1 name = ⟨sw2, none⟩ ∧
      sw2.active = true ∧ sw2.mode = StopwatchMode.REAL_TIME ∧
      Registry.find sw2.records_of name =
        some (stopped
          { (Registry.find sw.records_of name).getD PerformanceData.new with
            clock_start := real_time c0 }
          (real_time c1 - real_time c0)) := by
  have ht0 : take_time sw.mode c0 = Except.ok (real_time c0) := by simp [take_time, hmode]
  obtain ⟨sw1, hstart, hact1, hmode1, hrec1⟩ : ∃ sw1, start sw c0 name = ⟨sw1, none⟩ ∧
      sw1.active = true ∧ sw1.mode = StopwatchMode.REAL_TIME ∧
      Registry.find sw1.records_of name =
        some { (Registry.find sw.records_of name).getD PerformanceData.new with
          clock_start := real_time c0 } := by
    cases hrec : Registry.find sw.records_of name with
    | none =>
      refine ⟨_, start_eq_absent sw c0 name _ hactive ht0 hrec, hactive, hmode, ?_⟩
      exact Registry.find_store_same _ name _ _
        (Registry.find_place_same sw.records_of name PerformanceData.new hrec)
    | some r =>
      refine ⟨_, start_eq_present sw c0 name r _ hactive ht0 hrec, hactive, hmode, ?_⟩
      exact Registry.find_store_same _ name _ _ hrec
  have ht1 : take_time sw1.mode c1 = Except.ok (real_time c1) := by simp [take_time, hmode1]
  have hstop := stop_eq cps sw1 c1 name _ (real_time c1) hact1 ht1 hrec1
  simp only [hmode1, real_ne_cpu, if_false] at hstop
  refine ⟨sw1, _, hstart, hstop, hact1, rfl, ?_⟩
  exact Registry.find_store_same _ name _ _ hrec1

/-- Start/stop pairs on a record that already holds a positive minimum: the
counters advance by the number of pairs, the total by the sum of the lapses,
and the extrema are folded over the lapses. -/
theorem start_stop_pairs_present (cps : ℚ) (name : String) (ps : List (Clock × Clock)) :
    ∀ (sw : Stopwatch) (r : PerformanceData),
      sw.active = true → sw.mode = StopwatchMode.REAL_TIME →
      Registry.find sw.records_of name = some r → 0 < r.min_time →
      (∀ p ∈ ps, 0 < pair_lapse p) →
      (start_stop_pairs cps name sw ps).thrown = none ∧
      ∃ r1, Registry.find (start_stop_pairs cps name sw ps).sw.records_of name = some r1 ∧
        r1.stops = r.stops + (ps.length : Int) ∧
        r1.total_time = r.total_time + (ps.map pair_lapse).sum ∧
        r1.min_time = (ps.map pair_lapse).foldl min r.min_time ∧
        r1.max_time = (ps.map pair_lapse).foldl max r.max_time := by
  induction ps with
  | nil =>
    intro sw r _ _ hrec _ _
    simp [start_stop_pairs, hrec]
  | cons p rest ih =>
    intro sw r hactive hmode hrec hmin hpos
    obtain ⟨c0, c1⟩ := p
    have hl : 0 < real_time c1 - real_time c0 := hpos (c0, c1) (List.mem_cons_self _ _)
    obtain ⟨sw1, sw2, hstart, hstop, hact2, hmode2, hrec2⟩ :=
      start_stop_real cps sw name c0 c1 hactive hmode
    have hrec3 : Registry.find sw2.records_of name =
        some (stopped { r with clock_start := real_time c0 } (real_time c1 - real_time c0)) := by
      rw [hrec2, hrec]
      rfl
    have hmin2 : 0 < (stopped { r with clock_start := real_time c0 }
        (real_time c1 - real_time c0)).min_time := by
      simp only [stopped]
      split_ifs
      · exact hl
      · exact hmin
    obtain ⟨hthrown, r1, hfind, h1, h2, h3, h4⟩ := ih sw2 _ hact2 hmode2 hrec3 hmin2
      (fun q hq => hpos q (List.mem_cons_of_mem _ hq))
    simp only [start_stop_pairs, hstart, hstop]
    refine ⟨hthrown, r1, hfind, ?_, ?_, ?_, ?_⟩
    · rw [h1]
      simp only [stopped, List.length_cons]
      push_cast
      ring
    · rw [h2]
      simp only [stopped, List.map_cons, List.sum_cons, pair_lapse]
      ring
    · rw [h3]
      simp only [stopped, List.map_cons, List.foldl_cons, pair_lapse]
      congr 1
      have hne : r.min_time ≠ 0 := ne_of_gt hmin
      by_cases hc : real_time c1 - real_time c0 ≤ r.min_time
      · simp [hc]
      · simp [hc, hne, le_of_lt (not_le.mp hc)]
    · rw [h4]
      simp only [stopped, List.map_cons, List.foldl_cons, pair_lapse]
      rfl

/-- C2: with the registry active and in REAL_TIME, for a name without a record
and a non-empty sequence of start/stop pairs whose lapses (stop reading minus
start reading) are all strictly positive, no call throws and afterwards the
record of the name has `stops` = the number of pairs, `total_time` = the sum of
the lapses, `min_time` = the smallest lapse and `max_time` = the largest. -/
theorem start_stop_accumulates (cps : ℚ) (sw : Stopwatch) (name : String)
    (ps : List (Clock × Clock))
    (hactive : sw.active = true) (hmode : sw.mode = StopwatchMode.REAL_TIME)
    (habsent : Registry.find sw.records_of name = none)
    (hne : ps ≠ [])
    (hpos : ∀ p ∈ ps, 0 < pair_lapse p) :
    (start_stop_pairs cps name sw ps).thrown = none ∧
    ∃ r, Registry.find (start_stop_pairs cps name sw ps).sw.records_of name = some r ∧
      r.stops = (ps.length : Int) ∧
      r.total_time = (ps.map pair_lapse).sum ∧
      (r.min_time ∈ ps.map pair_lapse ∧ ∀ l ∈ ps.map pair_lapse, r.min_time ≤ l) ∧
      (r.max_time ∈ ps.map pair_lapse ∧ ∀ l ∈ ps.map pair_lapse, l ≤ r.max_time) := by
  cases ps with
  | nil => exact absurd rfl hne
  | cons p rest =>
    obtain ⟨c0, c1⟩ := p
    have hl : 0 < real_time c1 - real_time c0 := hpos (c0, c1) (List.mem_cons_self _ _)
    obtain ⟨sw1, sw2, hstart, hstop, hact2, hmode2, hrec2⟩ :=
      start_stop_real cps sw name c0 c1 hactive hmode
    have hval : stopped
        { (Registry.find sw.records_of name).getD PerformanceData.new with
          clock_start := real_time c0 }
        (real_time c1 - real_time c0)
        = ⟨real_time c0, real_time c1 - real_time c0, real_time c1 - real_time c0,
            real_time c1 - real_time c0, 1⟩ := by
      simp [habsent, stopped, PerformanceData.new, le_of_lt hl]
    rw [hval] at hrec2
    obtain ⟨hthrown, r1, hfind, h1, h2, h3, h4⟩ :=
      start_stop_pairs_present cps name rest sw2 _ hact2 hmode2 hrec2 hl
        (fun q hq => hpos q (List.mem_cons_of_mem _ hq))
    simp only [start_stop_pairs, hstart, hstop]
    refine ⟨hthrown, r1, hfind, ?_, ?_, ?_, ?_⟩
    · rw [h1]
      simp only [List.length_cons]
      push_cast
      ring
    · rw [h2]
      simp only [List.map_cons, List.sum_cons, pair_lapse]
    · rw [h3]
      exact foldl_min_spec (rest.map pair_lapse) (real_time c1 - real_time c0)
    · rw [h4]
      exact foldl_max_spec (rest.map pair_lapse) (real_time c1 - real_time c0)

/-- Witness of C2: from the empty registry, two pairs with lapses 0.01 and 0.03
leave the record with two stops, total 0.04, minimum 0.01 and maximum 0.03. -/
theorem start_stop_accumulates_witness :
    (start_stop_pairs 1000000 "b" ⟨[], true, StopwatchMode.REAL_TIME⟩
      [(⟨0, 100, 0⟩, ⟨0, 100, 10000⟩), (⟨0, 200, 0⟩, ⟨0, 200, 30000⟩)]).thrown = none ∧
    ∃ r, Registry.find
        (start_stop_pairs 1000000 "b" ⟨[], true, StopwatchMode.REAL_TIME⟩
          [(⟨0, 100, 0⟩, ⟨0, 100, 10000⟩), (⟨0, 200, 0⟩, ⟨0, 200, 30000⟩)]).sw.records_of "b"
        = some r ∧
      r.stops = 2 ∧ r.total_time = 4 / 100 ∧ r.min_time = 1 / 100 ∧ r.max_time = 3 / 100 := by
  obtain ⟨hthrown, r, hfind, hstops, htotal, ⟨hminmem, hmin⟩, ⟨hmaxmem, hmax⟩⟩ :=
    start_stop_accumulates 1000000 ⟨[], true, StopwatchMode.REAL_TIME⟩ "b"
      [(⟨0, 100, 0⟩, ⟨0, 100, 10000⟩), (⟨0, 200, 0⟩, ⟨0, 200, 30000⟩)]
      rfl rfl rfl (by simp) (by norm_num [pair_lapse, real_time])
  refine ⟨hthrown, r, hfind, by simpa using hstops, ?_, ?_, ?_⟩
  · rw [htotal]
    norm_num [pair_lapse, real_time]
  · have h1 := hmin (1 / 100) (by norm_num [pair_lapse, real_time])
    have h2 : r.min_time = 1 / 100 ∨ r.min_time = 3 / 100 := by
      norm_num [pair_lapse, real_time] at hminmem
      exact hminmem
    rcases h2 with h | h
    · exact h
    · rw [h] at h1
      norm_num at h1
  · have h1 := hmax (3 / 100) (by norm_num [pair_lapse, real_time])
    have h2 : r.max_time = 1 / 100 ∨ r.max_time = 3 / 100 := by
      norm_num [pair_lapse, real_time] at hmaxmem
      exact hmaxmem
    rcases h2 with h | h
    · rw [h] at h1
      norm_num at h1
    · exact h

/-- C3, as the code has it: with the registry active and in REAL_TIME, for a
name without a record and any two readings `t0` (at `start`) and `t1` (at
`stop`), both calls return normally and the record is
`(t0, lapse, lapse, max 0 lapse, 1)` with `lapse = t1 - t0`: count, minimum and
total are as claimed, and the maximum equals the lapse exactly when the lapse
is not negative. -/
theorem single_sample (cps : ℚ) (sw : Stopwatch) (name : String) (c0 c1 : Clock)
    (hactive : sw.active = true) (hmode : sw.mode = StopwatchMode.REAL_TIME)
    (habsent : Registry.find sw.records_of name = none) :
    (start sw c0 name).thrown = none ∧
    (stop cps (start sw c0 name).sw c1 name).thrown = none ∧
    Registry.find (stop cps (start sw c0 name).sw c1 name).sw.records_of name =
      some ⟨real_time c0, real_time c1 - real_time c0, real_time c1 - real_time c0,
        max 0 (real_time c1 - real_time c0), 1⟩ := by
  obtain ⟨sw1, sw2, hstart, hstop, _, _, hrec2⟩ :=
    start_stop_real cps sw name c0 c1 hactive hmode
  rw [hstart]
  simp only [hstop, hrec2, habsent, true_and]
  simp only [stopped, PerformanceData.new, Option.getD_none]
  by_cases h : (0 : ℚ) ≤ real_time c1 - real_time c0
  · simp [h]
  · simp [h, le_of_lt (not_le.mp h)]

/-- Witness of C3 (amended): readings 5 then 8 give the record `(5, 3, 3, 3, 1)`. -/
theorem single_sample_witness :
    Registry.find
      (stop 1000000 (start ⟨[], true, StopwatchMode.REAL_TIME⟩ ⟨0, 5, 0⟩ "x").sw
        ⟨0, 8, 0⟩ "x").sw.records_of "x"
      = some ⟨5, 3, 3, 3, 1⟩ := by
  have h := (single_sample 1000000 ⟨[], true, StopwatchMode.REAL_TIME⟩ "x"
    ⟨0, 5, 0⟩ ⟨0, 8, 0⟩ rfl rfl rfl).2.2
  rw [h]
  norm_num [real_time]

/-- Counterexample to C3 as stated: with readings 5 at `start` and 3 at `stop`
the lapse is -2, and the record ends with `max_time = 0`, not the lapse. -/
theorem single_sample_negative_lapse :
    Registry.find
      (stop 1000000 (start ⟨[], true, StopwatchMode.REAL_TIME⟩ ⟨0, 5, 0⟩ "x").sw
        ⟨0, 3, 0⟩ "x").sw.records_of "x"
      = some ⟨5, -2, -2, 0, 1⟩ ∧
    real_time ⟨0, 3, 0⟩ - real_time ⟨0, 5, 0⟩ = -2 ∧
    (0 : ℚ) ≠ real_time ⟨0, 3, 0⟩ - real_time ⟨0, 5, 0⟩ := by
  refine ⟨?_, ?_, ?_⟩
  · norm_num [start, stop, take_time, real_time, Registry.insert, Registry.find,
      Registry.place, Registry.store, PerformanceData.new]
  · norm_num [real_time]
  · norm_num [real_time]

/-- C4: with the registry active and the mode CPU_TIME or REAL_TIME, when the
name has no record each of `stop`, `pause`, `reset` and `report` throws
`NotFound`, leaves the state as it was, and `report` leaves the stream as it was. -/
theorem missing_record_fails (cps : ℚ) (render : LongDouble → String) (sw : Stopwatch)
    (clk : Clock) (name : String) (output : String)
    (hactive : sw.active = true)
    (hmode : sw.mode = StopwatchMode.CPU_TIME ∨ sw.mode = StopwatchMode.REAL_TIME)
    (habsent : Registry.find sw.records_of name = none) :
    stop cps sw clk name = ⟨sw, some NotFound⟩ ∧
    pause sw clk name = ⟨sw, some NotFound⟩ ∧
    reset sw name = ⟨sw, some NotFound⟩ ∧
    report render sw name output = (⟨sw, some NotFound⟩, output) := by
  refine ⟨?_, ?_, ?_, ?_⟩
  · rcases hmode with h | h <;> simp [stop, hactive, take_time, h, habsent]
  · simp [pause, hactive, habsent]
  · simp [reset, hactive, habsent]
  · simp [report, hactive, habsent]

/-- Witness of C4: on a registry holding only "a", the four calls on "b" throw `NotFound`. -/
theorem missing_record_fails_witness :
    stop 1000000 ⟨[("a", ⟨1, 2, 3, 4, 5⟩)], true, StopwatchMode.CPU_TIME⟩ ⟨9, 1, 0⟩ "b"
      = ⟨⟨[("a", ⟨1, 2, 3, 4, 5⟩)], true, StopwatchMode.CPU_TIME⟩, some NotFound⟩ ∧
    pause ⟨[("a", ⟨1, 2, 3, 4, 5⟩)], true, StopwatchMode.CPU_TIME⟩ ⟨9, 1, 0⟩ "b"
      = ⟨⟨[("a", ⟨1, 2, 3, 4, 5⟩)], true, StopwatchMode.CPU_TIME⟩, some NotFound⟩ ∧
    reset ⟨[("a", ⟨1, 2, 3, 4, 5⟩)], true, StopwatchMode.CPU_TIME⟩ "b"
      = ⟨⟨[("a", ⟨1, 2, 3, 4, 5⟩)], true, StopwatchMode.CPU_TIME⟩, some NotFound⟩ ∧
    report (fun _ => "?") ⟨[("a", ⟨1, 2, 3, 4, 5⟩)], true, StopwatchMode.CPU_TIME⟩ "b" "log"
      = (⟨⟨[("a", ⟨1, 2, 3, 4, 5⟩)], true, StopwatchMode.CPU_TIME⟩, some NotFound⟩, "log") :=
  missing_record_fails 1000000 (fun _ => "?")
    ⟨[("a", ⟨1, 2, 3, 4, 5⟩)], true, StopwatchMode.CPU_TIME⟩ ⟨9, 1, 0⟩ "b" "log"
    rfl (Or.inl rfl) (by simp [Registry.find])

/-- C5 on the code: with the registry active and the mode still `NONE`, `start`
and `stop` of a recorded name throw `NotInitialized`, but `pause` of that name
returns normally (it reads `clock()` without going through `take_time`) and
adds the raw reading to `total_time`; on a name without a record `pause`
throws `NotFound`, not `NotInitialized`. -/
theorem pause_before_init :
    (start ⟨[("x", ⟨0, 0, 0, 0, 0⟩)], true, StopwatchMode.NONE⟩ ⟨7, 0, 0⟩ "x").thrown
      = some NotInitialized ∧
    (stop 1000000 ⟨[("x", ⟨0, 0, 0, 0, 0⟩)], true, StopwatchMode.NONE⟩ ⟨7, 0, 0⟩ "x").thrown
      = some NotInitialized ∧
    pause ⟨[("x", ⟨0, 0, 0, 0, 0⟩)], true, StopwatchMode.NONE⟩ ⟨7, 0, 0⟩ "x"
      = ⟨⟨[("x", ⟨0, 7, 0, 0, 0⟩)], true, StopwatchMode.NONE⟩, none⟩ ∧
    (pause ⟨[], true, StopwatchMode.NONE⟩ ⟨7, 0, 0⟩ "x").thrown = some NotFound ∧
    NotFound ≠ NotInitialized := by
  refine ⟨?_, ?_, ?_, ?_, notFound_ne_notInitialized⟩
  · simp [start, take_time, Registry.insert, Registry.find]
  · simp [stop, take_time]
  · norm_num [pause, Registry.find, Registry.store]
  · simp [pause, Registry.find]

/-- C6: when `active` is false, for every registry, mode and name, each of
`start`, `stop`, `pause`, `reset`, `reset_all`, `report` and `report_all`
returns normally with the whole state (registry, mode, flag) as it was, and the
two reports leave the stream as it was. -/
theorem disabled_is_noop (cps : ℚ) (render : LongDouble → String) (sw : Stopwatch)
    (clk : Clock) (name : String) (output : String)
    (hoff : sw.active = false) :
    start sw clk name = ⟨sw, none⟩ ∧
    stop cps sw clk name = ⟨sw, none⟩ ∧
    pause sw clk name = ⟨sw, none⟩ ∧
    reset sw name = ⟨sw, none⟩ ∧
    reset_all sw = ⟨sw, none⟩ ∧
    report render sw name output = (⟨sw, none⟩, output) ∧
    report_all render sw output = (⟨sw, none⟩, output) := by
  refine ⟨?_, ?_, ?_, ?_, ?_, ?_, ?_⟩
  · simp [start, hoff]
  · simp [stop, hoff]
  · simp [pause, hoff]
  · simp [reset, hoff]
  · simp [reset_all, hoff]
  · simp [report, hoff]
  · simp [report_all, hoff]

/-- Witness of C6: a switched-off stopwatch in mode `NONE` ignores calls on a missing name. -/
theorem disabled_is_noop_witness :
    start ⟨[("a", ⟨1, 2, 3, 4, 5⟩)], false, StopwatchMode.NONE⟩ ⟨9, 1, 0⟩ "b"
      = ⟨⟨[("a", ⟨1, 2, 3, 4, 5⟩)], false, StopwatchMode.NONE⟩, none⟩ ∧
    stop 1000000 ⟨[("a", ⟨1, 2, 3, 4, 5⟩)], false, StopwatchMode.NONE⟩ ⟨9, 1, 0⟩ "b"
      = ⟨⟨[("a", ⟨1, 2, 3, 4, 5⟩)], false, StopwatchMode.NONE⟩, none⟩ ∧
    report (fun _ => "?") ⟨[("a", ⟨1, 2, 3, 4, 5⟩)], false, StopwatchMode.NONE⟩ "b" "log"
      = (⟨⟨[("a", ⟨1, 2, 3, 4, 5⟩)], false, StopwatchMode.NONE⟩, none⟩, "log") := by
  have h := disabled_is_noop 1000000 (fun _ => "?")
    ⟨[("a", ⟨1, 2, 3, 4, 5⟩)], false, StopwatchMode.NONE⟩ ⟨9, 1, 0⟩ "b" "log" rfl
  exact ⟨h.1, h.2.1, h.2.2.2.2.2.1⟩

/-- C7: with the registry active and a record present for the name,
`reset(name)` returns normally, leaves for the name the record with all five
fields zero, keeps the names of the registry as they were, and a following
`report(name)` or `stop(name)` does not throw `NotFound`. -/
theorem reset_zeroes_keeps (sw : Stopwatch) (name : String) (r : PerformanceData)
    (hactive : sw.active = true)
    (hrec : Registry.find sw.records_of name = some r) :
    (reset sw name).thrown = none ∧
    Registry.find (reset sw name).sw.records_of name = some ⟨0, 0, 0, 0, 0⟩ ∧
    Registry.names (reset sw name).sw.records_of = Registry.names sw.records_of ∧
    (∀ (render : LongDouble → String) (output : String),
      (report render (reset sw name).sw name output).1.thrown ≠ some NotFound) ∧
    (∀ (cps : ℚ) (clk : Clock),
      (stop cps (reset sw name).sw clk name).thrown ≠ some NotFound) := by
  have hreset : reset sw name =
      ⟨{ sw with records_of := Registry.store sw.records_of name ⟨0, 0, 0, 0, 0⟩ }, none⟩ := by
    simp [reset, hactive, hrec]
  have hfind : Registry.find (Registry.store sw.records_of name ⟨0, 0, 0, 0, 0⟩) name
      = some ⟨0, 0, 0, 0, 0⟩ := Registry.find_store_same _ _ _ _ hrec
  rw [hreset]
  refine ⟨rfl, hfind, Registry.names_store _ _ _, ?_, ?_⟩
  · intro render output
    simp [report, hactive, hfind]
  · intro cps clk
    cases hm : sw.mode <;>
      simp [stop, hactive, hfind, take_time, hm, notFound_ne_notInitialized.symm]

/-- Witness of C7: resetting "x" in a registry of two names zeroes its record
and keeps both names. -/
theorem reset_zeroes_keeps_witness :
    Registry.find
      (reset ⟨[("a", ⟨1, 2, 3, 4, 5⟩), ("x", ⟨9, 8, 7, 6, 5⟩)], true,
        StopwatchMode.REAL_TIME⟩ "x").sw.records_of "x" = some ⟨0, 0, 0, 0, 0⟩ ∧
    Registry.names
      (reset ⟨[("a", ⟨1, 2, 3, 4, 5⟩), ("x", ⟨9, 8, 7, 6, 5⟩)], true,
        StopwatchMode.REAL_TIME⟩ "x").sw.records_of = ["a", "x"] := by
  have h := reset_zeroes_keeps
    ⟨[("a", ⟨1, 2, 3, 4, 5⟩), ("x", ⟨9, 8, 7, 6, 5⟩)], true, StopwatchMode.REAL_TIME⟩ "x"
    ⟨9, 8, 7, 6, 5⟩ rfl (by simp [Registry.find])
  refine ⟨h.2.1, ?_⟩
  rw [h.2.2.1]
  simp [Registry.names]

/-- C8: with the registry active and a record present for the name, for every
clock reading and every mode `pause(name)` returns normally and the record it
leaves differs from the one found in `total_time` at most: `clock_start`,
`min_time`, `max_time` and `stops` are as they were. -/
theorem pause_touches_total_only (sw : Stopwatch) (clk : Clock) (name : String)
    (r : PerformanceData)
    (hactive : sw.active = true)
    (hrec : Registry.find sw.records_of name = some r) :
    (pause sw clk name).thrown = none ∧
    ∃ q : ℚ, Registry.find (pause sw clk name).sw.records_of name =
      some ⟨r.clock_start, q, r.min_time, r.max_time, r.stops⟩ := by
  have hpause : pause sw clk name =
      ⟨{ sw with
          records_of := Registry.store sw.records_of name
            { r with total_time := r.total_time + ((clk.clock : ℚ) - r.clock_start) } },
        none⟩ := by
    simp [pause, hactive, hrec]
  rw [hpause]
  exact ⟨rfl, _, Registry.find_store_same _ _ _ _ hrec⟩

/-- Witness of C8: pausing the record `(10, 5, 2, 3, 4)` leaves minimum 2,
maximum 3 and four stops. -/
theorem pause_touches_total_only_witness :
    ∃ q : ℚ, Registry.find
      (pause ⟨[("a", ⟨10, 5, 2, 3, 4⟩)], true, StopwatchMode.CPU_TIME⟩
        ⟨25, 0, 0⟩ "a").sw.records_of "a" = some ⟨10, q, 2, 3, 4⟩ :=
  (pause_touches_total_only ⟨[("a", ⟨10, 5, 2, 3, 4⟩)], true, StopwatchMode.CPU_TIME⟩
    ⟨25, 0, 0⟩ "a" ⟨10, 5, 2, 3, 4⟩ rfl (by simp [Registry.find])).2

/-- C9 on the code: in REAL_TIME, with a record started at the wall-clock
reading 100, a `pause` at the moment where `take_time` reads 105 and `clock()`
reads 7 adds `7 - 100 = -93` to `total_time`, not `105 - 100 = 5`: the end
reading of `pause` is `clock()`, not the source selected by the mode. -/
theorem pause_reads_cpu_clock :
    take_time StopwatchMode.REAL_TIME ⟨7, 105, 0⟩ = Except.ok 105 ∧
    pause ⟨[("x", ⟨100, 0, 0, 0, 0⟩)], true, StopwatchMode.REAL_TIME⟩ ⟨7, 105, 0⟩ "x"
      = ⟨⟨[("x", ⟨100, -93, 0, 0, 0⟩)], true, StopwatchMode.REAL_TIME⟩, none⟩ ∧
    (-93 : ℚ) ≠ 0 + (105 - 100) := by
  refine ⟨?_, ?_, ?_⟩
  · norm_num [take_time, real_time]
  · norm_num [pause, Registry.find, Registry.store]
  · norm_num

/-- C10: with the registry active and the mode CPU_TIME or REAL_TIME,
`take_time` yields a reading `t` and `start(name)` returns normally; if the
name had no record it now has the record `(t, 0, 0, 0, 0)`; if it had the
record `r` it now has `r` with `clock_start = t` and the other four fields as
they were. -/
theorem start_first_insert_wins (sw : Stopwatch) (clk : Clock) (name : String)
    (hactive : sw.active = true)
    (hmode : sw.mode = StopwatchMode.CPU_TIME ∨ sw.mode = StopwatchMode.REAL_TIME) :
    ∃ t : ℚ, take_time sw.mode clk = Except.ok t ∧
      (start sw clk name).thrown = none ∧
      (Registry.find sw.records_of name = none →
        Registry.find (start sw clk name).sw.records_of name = some ⟨t, 0, 0, 0, 0⟩) ∧
      (∀ r : PerformanceData, Registry.find sw.records_of name = some r →
        Registry.find (start sw clk name).sw.records_of name =
          some ⟨t, r.total_time, r.min_time, r.max_time, r.stops⟩) := by
  obtain ⟨t, ht⟩ : ∃ t : ℚ, take_time sw.mode clk = Except.ok t := by
    rcases hmode with h | h <;> simp [take_time, h]
  refine ⟨t, ht, ?_, ?_, ?_⟩
  · cases hrec : Registry.find sw.records_of name with
    | none => rw [start_eq_absent sw clk name t hactive ht hrec]
    | some r => rw [start_eq_present sw clk name r t hactive ht hrec]
  · intro hrec
    rw [start_eq_absent sw clk name t hactive ht hrec]
    exact Registry.find_store_same _ name _ _
      (Registry.find_place_same sw.records_of name PerformanceData.new hrec)
  · intro r hrec
    rw [start_eq_present sw clk name r t hactive ht hrec]
    exact Registry.find_store_same _ name _ _ hrec

/-- Witness of C10: in CPU_TIME at the reading 42, starting the new name "b"
creates `(42, 0, 0, 0, 0)`, and starting the recorded name "a" only moves its
`clock_start`. -/
theorem start_first_insert_wins_witness :
    Registry.find
      (start ⟨[("a", ⟨10, 5, 2, 3, 4⟩)], true, StopwatchMode.CPU_TIME⟩
        ⟨42, 0, 0⟩ "b").sw.records_of "b" = some ⟨42, 0, 0, 0, 0⟩ ∧
    Registry.find
      (start ⟨[("a", ⟨10, 5, 2, 3, 4⟩)], true, StopwatchMode.CPU_TIME⟩
        ⟨42, 0, 0⟩ "a").sw.records_of "a" = some ⟨42, 5, 2, 3, 4⟩ := by
  obtain ⟨t, ht, _, hnew, _⟩ :=
    start_first_insert_wins ⟨[("a", ⟨10, 5, 2, 3, 4⟩)], true, StopwatchMode.CPU_TIME⟩
      ⟨42, 0, 0⟩ "b" rfl (Or.inl rfl)
  obtain ⟨u, hu, _, _, hold⟩ :=
    start_first_insert_wins ⟨[("a", ⟨10, 5, 2, 3, 4⟩)], true, StopwatchMode.CPU_TIME⟩
      ⟨42, 0, 0⟩ "a" rfl (Or.inl rfl)
  have ht42 : t = 42 := by
    norm_num [take_time] at ht
    exact ht.symm
  have hu42 : u = 42 := by
    norm_num [take_time] at hu
    exact hu.symm
  subst ht42
  subst hu42
  exact ⟨hnew (by simp [Registry.find]), hold ⟨10, 5, 2, 3, 4⟩ (by simp [Registry.find])⟩

end Stopwatch

/-! ## Resetting every record -/

namespace Registry

theorem store_absent (m : Registry) (name : String) (v : Stopwatch.PerformanceData)
    (h : find m name = none) : store m name v = m := by
  induction m with
  | nil => rfl
  | cons hd tl ih =>
    obtain ⟨k, u⟩ := hd
    by_cases hk : k = name
    · simp [find, hk] at h
    · simp [find, hk] at h
      simp [store, hk, ih h]

theorem find_store (m : Registry) (name other : String) (v : Stopwatch.PerformanceData) :
    find (store m name v) other =
      if other = name then (find m other).map (fun _ => v) else find m other := by
  by_cases h : other = name
  · subst h
    cases hf : find m other with
    | none => simp [store_absent m other v hf, hf]
    | some w => simp [find_store_same m other v w hf]
  · simp [h, find_store_other m name other v h]

theorem find_ne_none_of_mem_names (m : Registry) (name : String) (h : name ∈ names m) :
    find m name ≠ none := by
  induction m with
  | nil => simp [names] at h
  | cons hd tl ih =>
    obtain ⟨k, u⟩ := hd
    by_cases hk : k = name
    · simp [find, hk]
    · have htl : name ∈ names tl := by
        simp only [names, List.map_cons, List.mem_cons] at h
        rcases h with h | h
        · exact absurd h.symm hk
        · exact h
      simp [find, hk, ih htl]

theorem mem_names_of_find (m : Registry) (name : String) (r : Stopwatch.PerformanceData)
    (h : find m name = some r) : name ∈ names m := by
  induction m with
  | nil => simp [find] at h
  | cons hd tl ih =>
    obtain ⟨k, u⟩ := hd
    by_cases hk : k = name
    · simp [names, hk]
    · simp [find, hk] at h
      have := ih h
      simp only [names] at this
      simp [names, this]

theorem names_zeroed (ks : List String) (m : Registry) : names (zeroed m ks) = names m := by
  induction ks generalizing m with
  | nil => rfl
  | cons k ks ih =>
    have h := ih (store m k ⟨0, 0, 0, 0, 0⟩)
    rw [names_store] at h
    simpa [zeroed] using h

theorem find_zeroed (ks : List String) (m : Registry) (name : String) :
    find (zeroed m ks) name =
      if name ∈ ks then (find m name).map (fun _ => ⟨0, 0, 0, 0, 0⟩) else find m name := by
  induction ks generalizing m with
  | nil => simp [zeroed]
  | cons k ks ih =>
    have h := ih (store m k ⟨0, 0, 0, 0, 0⟩)
    simp only [zeroed, List.foldl_cons] at h ⊢
    rw [h, find_store]
    by_cases h1 : name = k <;> by_cases h2 : name ∈ ks <;>
      cases hf : find m name <;> simp [h1, h2, hf]

theorem zeroed_cons_of_not_mem (ks : List String) (k : String) (v : Stopwatch.PerformanceData)
    (rest : Registry) (h : k ∉ ks) : zeroed ((k, v) :: rest) ks = (k, v) :: zeroed rest ks := by
  induction ks generalizing rest with
  | nil => rfl
  | cons j ks ih =>
    have hj : ¬ k = j := fun e => h (by simp [e])
    have hks : k ∉ ks := fun e => h (List.mem_cons_of_mem _ e)
    have := ih (store rest j ⟨0, 0, 0, 0, 0⟩) hks
    simpa [zeroed, store, hj] using this

theorem zeroed_names_of_nodup (m : Registry) (h : (names m).Nodup) :
    zeroed m (names m) = m.map (fun e => (e.1, ⟨0, 0, 0, 0, 0⟩)) := by
  induction m with
  | nil => rfl
  | cons hd tl ih =>
    obtain ⟨k, u⟩ := hd
    simp only [names, List.map_cons, List.nodup_cons] at h
    have htl := ih h.2
    have hstep : zeroed ((k, u) :: tl) (names ((k, u) :: tl))
        = zeroed ((k, ⟨0, 0, 0, 0, 0⟩) :: tl) (names tl) := by
      simp [zeroed, names, store]
    rw [hstep, zeroed_cons_of_not_mem (names tl) k _ tl h.1, htl]
    simp

end Registry

namespace Stopwatch

theorem reset_eq (sw : Stopwatch) (name : String) (r : PerformanceData)
    (hactive : sw.active = true) (hrec : Registry.find sw.records_of name = some r) :
    reset sw name =
      ⟨{ sw with records_of := Registry.store sw.records_of name ⟨0, 0, 0, 0, 0⟩ }, none⟩ := by
  simp [reset, hactive, hrec]

theorem reset_all_loop_eq (ks : List String) (sw : Stopwatch)
    (hactive : sw.active = true)
    (hks : ∀ k ∈ ks, Registry.find sw.records_of k ≠ none) :
    reset_all_loop sw ks = ⟨{ sw with records_of := Registry.zeroed sw.records_of ks }, none⟩ := by
  induction ks generalizing sw with
  | nil => rfl
  | cons k ks ih =>
    obtain ⟨r, hr⟩ := Option.ne_none_iff_exists'.mp (hks k (List.mem_cons_self _ _))
    have hnext : ∀ j ∈ ks,
        Registry.find (Registry.store sw.records_of k ⟨0, 0, 0, 0, 0⟩) j ≠ none := by
      intro j hj
      have hjm := hks j (List.mem_cons_of_mem _ hj)
      rw [Registry.find_store]
      split_ifs
      · simpa using hjm
      · exact hjm
    have h := ih
      { sw with records_of := Registry.store sw.records_of k ⟨0, 0, 0, 0, 0⟩ } hactive hnext
    simp only [reset_all_loop, reset_eq sw k r hactive hr]
    rw [h]
    rfl

/-- C11: with the registry active, for every registry (the empty one included)
`reset_all()` returns normally, the registry keeps exactly the names it had, in
the same order, every name that had a record now has the all-zero record, and
(the keys of a map being distinct) every entry of the registry holds the
all-zero record; the mode and the flag are kept. -/
theorem reset_all_resets (sw : Stopwatch) (hactive : sw.active = true) :
    (reset_all sw).thrown = none ∧
    Registry.names (reset_all sw).sw.records_of = Registry.names sw.records_of ∧
    (∀ name : String, Registry.find (reset_all sw).sw.records_of name =
      (Registry.find sw.records_of name).map (fun _ => ⟨0, 0, 0, 0, 0⟩)) ∧
    ((Registry.names sw.records_of).Nodup →
      ∀ e ∈ (reset_all sw).sw.records_of, e.2 = ⟨0, 0, 0, 0, 0⟩) ∧
    (reset_all sw).sw.active = sw.active ∧ (reset_all sw).sw.mode = sw.mode := by
  have h : reset_all sw =
      ⟨{ sw with
          records_of := Registry.zeroed sw.records_of (Registry.names sw.records_of) },
        none⟩ := by
    rw [reset_all, if_neg (by simp [hactive])]
    exact reset_all_loop_eq _ sw hactive
      (fun k hk => Registry.find_ne_none_of_mem_names _ k hk)
  rw [h]
  refine ⟨rfl, Registry.names_zeroed _ _, ?_, ?_, rfl, rfl⟩
  · intro name
    rw [Registry.find_zeroed]
    split_ifs with hmem
    · rfl
    · cases hf : Registry.find sw.records_of name with
      | none => rfl
      | some r => exact absurd (Registry.mem_names_of_find _ _ _ hf) hmem
  · intro hnd e he
    simp only [Registry.zeroed_names_of_nodup _ hnd, List.mem_map] at he
    obtain ⟨a, _, rfl⟩ := he
    rfl

/-- Witness of C11: two records are zeroed and both names stay. -/
theorem reset_all_resets_witness :
    (reset_all ⟨[("a", ⟨1, 2, 3, 4, 5⟩), ("x", ⟨9, 8, 7, 6, 5⟩)], true,
      StopwatchMode.REAL_TIME⟩).thrown = none ∧
    Registry.names (reset_all ⟨[("a", ⟨1, 2, 3, 4, 5⟩), ("x", ⟨9, 8, 7, 6, 5⟩)], true,
      StopwatchMode.REAL_TIME⟩).sw.records_of = ["a", "x"] ∧
    Registry.find (reset_all ⟨[("a", ⟨1, 2, 3, 4, 5⟩), ("x", ⟨9, 8, 7, 6, 5⟩)], true,
      StopwatchMode.REAL_TIME⟩).sw.records_of "x" = some ⟨0, 0, 0, 0, 0⟩ := by
  have h := reset_all_resets
    ⟨[("a", ⟨1, 2, 3, 4, 5⟩), ("x", ⟨9, 8, 7, 6, 5⟩)], true, StopwatchMode.REAL_TIME⟩ rfl
  refine ⟨h.1, ?_, ?_⟩
  · rw [h.2.1]
    simp [Registry.names]
  · rw [h.2.2.1 "x"]
    simp [Registry.find]

/-! ## The report -/

theorem bar_eq (n : Nat) : bar n = String.mk (List.replicate n '=') := by
  induction n with
  | zero => rfl
  | succ n ih =>
    rw [bar, ih, List.replicate_succ']
    apply String.ext
    simp

theorem header_eq (n : Nat) :
    "======================" ++ bar n = String.mk (List.replicate (22 + n) '=') := by
  rw [bar_eq]
  apply String.ext
  simp [List.replicate_add]

/-- C12: with the registry active and a record `r` present for the name,
`report(name, sink)` returns normally with the state as it was and appends to
the sink exactly these ten lines, each ended by a newline: an empty line; a
bar of `22 + name.length()` characters `=`; `Tracking performance: ` and the
name; the same bar; the average, minimum, maximum and total lines with the
rendered numbers between the label and ` sec`; `  *  Stops ` and the decimal
count; an empty line.  The average rendered is the quotient of the total by
the count, which is the ordinary quotient whenever the count is not zero. -/
theorem report_layout (render : LongDouble → String) (sw : Stopwatch) (name : String)
    (r : PerformanceData) (output : String)
    (hactive : sw.active = true)
    (hrec : Registry.find sw.records_of name = some r) :
    report render sw name output =
      (⟨sw, none⟩, output ++ String.join (List.map (fun l => l ++ "\n")
        [ "",
          String.mk (List.replicate (22 + name.utf8ByteSize) '='),
          "Tracking performance: " ++ name,
          String.mk (List.replicate (22 + name.utf8ByteSize) '='),
          "  *  Avg. time " ++ render (average r.total_time r.stops) ++ " sec",
          "  *  Min. time " ++ render (LongDouble.finite r.min_time) ++ " sec",
          "  *  Max. time " ++ render (LongDouble.finite r.max_time) ++ " sec",
          "  *  Tot. time " ++ render (LongDouble.finite r.total_time) ++ " sec",
          "  *  Stops " ++ toString r.stops,
          "" ])) ∧
    (r.stops ≠ 0 →
      average r.total_time r.stops = LongDouble.finite (r.total_time / (r.stops : ℚ))) := by
  constructor
  · simp only [report, hactive, hrec, ← header_eq]
    simp only [String.join, List.map, List.foldl, String.append_assoc, String.empty_append]
    rfl
  · intro h
    simp [average, h]

/-- Witness of C12: the report of the record `(10, 6, 2, 4, 2)` named "ab",
with every number rendered as `#`. -/
theorem report_layout_witness :
    report (fun _ => "#") ⟨[("ab", ⟨10, 6, 2, 4, 2⟩)], true, StopwatchMode.REAL_TIME⟩ "ab" "log:"
      = (⟨⟨[("ab", ⟨10, 6, 2, 4, 2⟩)], true, StopwatchMode.REAL_TIME⟩, none⟩,
        "log:\n========================\nTracking performance: ab\n"
          ++ "========================\n  *  Avg. time # sec\n  *  Min. time # sec\n"
          ++ "  *  Max. time # sec\n  *  Tot. time # sec\n  *  Stops 2\n\n") ∧
    average 6 2 = LongDouble.finite 3 := by
  have h := report_layout (fun _ => "#")
    ⟨[("ab", ⟨10, 6, 2, 4, 2⟩)], true, StopwatchMode.REAL_TIME⟩ "ab" ⟨10, 6, 2, 4, 2⟩ "log:"
    rfl (by simp [Registry.find])
  refine ⟨?_, ?_⟩
  · rw [h.1]
    simp only [String.join, List.map, List.foldl]
    rfl
  · have h2 := h.2 (by decide)
    norm_num at h2
    exact h2

/-! ## Order of the checks in `stop`, and unvalidated transitions -/

/-- C13, as the code has it: with the registry active and no record for the
name, `stop(name)` leaves the state as it was and throws `NotFound` when the
mode is CPU_TIME or REAL_TIME, but `NotInitialized` when the mode is `NONE`:
the time is taken before the record is looked up. -/
theorem stop_missing_record (cps : ℚ) (sw : Stopwatch) (clk : Clock) (name : String)
    (hactive : sw.active = true)
    (habsent : Registry.find sw.records_of name = none) :
    stop cps sw clk name =
      ⟨sw, some (if sw.mode = StopwatchMode.NONE then NotInitialized else NotFound)⟩ := by
  cases hm : sw.mode <;> simp [stop, hactive, take_time, hm, habsent]

/-- Witness of C13 (amended): on the empty registry `stop` throws `NotFound` in
REAL_TIME and `NotInitialized` in mode `NONE`. -/
theorem stop_missing_record_witness :
    stop 1000000 ⟨[], true, StopwatchMode.REAL_TIME⟩ ⟨0, 5, 0⟩ "x"
      = ⟨⟨[], true, StopwatchMode.REAL_TIME⟩, some NotFound⟩ ∧
    stop 1000000 ⟨[], true, StopwatchMode.NONE⟩ ⟨0, 5, 0⟩ "x"
      = ⟨⟨[], true, StopwatchMode.NONE⟩, some NotInitialized⟩ :=
  ⟨stop_missing_record 1000000 ⟨[], true, StopwatchMode.REAL_TIME⟩ ⟨0, 5, 0⟩ "x" rfl rfl,
    stop_missing_record 1000000 ⟨[], true, StopwatchMode.NONE⟩ ⟨0, 5, 0⟩ "x" rfl rfl⟩

/-- Counterexample to C13 as stated: with the registry active, the mode `NONE`
and an empty registry, `stop("x")` throws `NotInitialized`, which is not `NotFound`. -/
theorem stop_missing_record_unset_mode :
    (stop 1000000 ⟨[], true, StopwatchMode.NONE⟩ ⟨0, 5, 0⟩ "x").thrown = some NotInitialized ∧
    (stop 1000000 ⟨[], true, StopwatchMode.NONE⟩ ⟨0, 5, 0⟩ "x").thrown ≠ some NotFound := by
  have h : (stop 1000000 ⟨[], true, StopwatchMode.NONE⟩ ⟨0, 5, 0⟩ "x").thrown
      = some NotInitialized := by
    simp [stop, take_time]
  refine ⟨h, ?_⟩
  rw [h]
  intro e
  exact notFound_ne_notInitialized (Option.some.inj e).symm

/-- C14: with the registry active and in REAL_TIME, for a name without a record
and any readings `t0`, `t1`, `t2`, the calls `start` at `t0`, `stop` at `t1` and
`stop` at `t2` all return normally, and afterwards the record has two stops,
`clock_start = t0` and `total_time = (t1 - t0) + (t2 - t0)`: the second lapse
is taken against the start reading of the first. -/
theorem second_stop_reuses_start (cps : ℚ) (sw : Stopwatch) (name : String)
    (c0 c1 c2 : Clock)
    (hactive : sw.active = true) (hmode : sw.mode = StopwatchMode.REAL_TIME)
    (habsent : Registry.find sw.records_of name = none) :
    (start sw c0 name).thrown = none ∧
    (stop cps (start sw c0 name).sw c1 name).thrown = none ∧
    (stop cps (stop cps (start sw c0 name).sw c1 name).sw c2 name).thrown = none ∧
    ∃ r : PerformanceData,
      Registry.find (stop cps (stop cps (start sw c0 name).sw c1 name).sw c2 name).sw.records_of
        name = some r ∧
      r.stops = 2 ∧ r.clock_start = real_time c0 ∧
      r.total_time = (real_time c1 - real_time c0) + (real_time c2 - real_time c0) := by
  obtain ⟨sw1, sw2, hstart, hstop, hact2, hmode2, hrec2⟩ :=
    start_stop_real cps sw name c0 c1 hactive hmode
  have ht2 : take_time sw2.mode c2 = Except.ok (real_time c2) := by simp [take_time, hmode2]
  have hstop2 := stop_eq cps sw2 c2 name _ (real_time c2) hact2 ht2 hrec2
  simp only [hmode2, real_ne_cpu, if_false] at hstop2
  rw [hstart]
  simp only [hstop, hstop2, true_and]
  refine ⟨_, Registry.find_store_same _ name _ _ hrec2, ?_, ?_, ?_⟩
  · simp [stopped, habsent, PerformanceData.new]
  · simp [stopped]
  · simp [stopped, habsent, PerformanceData.new]

/-- Witness of C14: readings 5, 8 and 12 give two stops and a total of 3 + 7 = 10. -/
theorem second_stop_reuses_start_witness :
    ∃ r : PerformanceData,
      Registry.find
        (stop 1000000 (stop 1000000 (start ⟨[], true, StopwatchMode.REAL_TIME⟩
          ⟨0, 5, 0⟩ "x").sw ⟨0, 8, 0⟩ "x").sw ⟨0, 12, 0⟩ "x").sw.records_of "x" = some r ∧
      r.stops = 2 ∧ r.total_time = 10 := by
  obtain ⟨_, _, _, r, hfind, hstops, _, htotal⟩ :=
    second_stop_reuses_start 1000000 ⟨[], true, StopwatchMode.REAL_TIME⟩ "x"
      ⟨0, 5, 0⟩ ⟨0, 8, 0⟩ ⟨0, 12, 0⟩ rfl rfl rfl
  refine ⟨r, hfind, hstops, ?_⟩
  rw [htotal]
  norm_num [real_time]

end Stopwatch

/-! ## Iteration over the registry -/

namespace Registry

theorem mem_names_place (m : Registry) (name x : String) (v : Stopwatch.PerformanceData) :
    x ∈ names (place m name v) ↔ x = name ∨ x ∈ names m := by
  induction m with
  | nil => simp [place, names]
  | cons hd tl ih =>
    obtain ⟨k, u⟩ := hd
    simp only [names] at ih
    by_cases hlt : name < k
    · simp [place, names, hlt]
    · simp only [place, names, hlt, if_false, List.map_cons, List.mem_cons, ih]
      tauto

/-- A new key is put where the ascending order of the keys is kept. -/
theorem names_place_sorted (m : Registry) (name : String) (v : Stopwatch.PerformanceData)
    (hs : (names m).Pairwise (· < ·)) (habsent : find m name = none) :
    (names (place m name v)).Pairwise (· < ·) := by
  induction m with
  | nil => simp [place, names]
  | cons hd tl ih =>
    obtain ⟨k, u⟩ := hd
    have hk : ¬ k = name := by
      intro e
      simp [find, e] at habsent
    have htl : find tl name = none := by
      simpa [find, hk] using habsent
    have hs2 : (∀ x ∈ names tl, k < x) ∧ (names tl).Pairwise (· < ·) := by
      simpa [names] using hs
    by_cases hlt : name < k
    · have hall : ∀ x ∈ names ((k, u) :: tl), name < x := by
        intro x hx
        have hx2 : x = k ∨ x ∈ names tl := by simpa [names] using hx
        rcases hx2 with e | e
        · rw [e]
          exact hlt
        · exact lt_trans hlt (hs2.1 x e)
      have hgoal : (name :: names ((k, u) :: tl)).Pairwise (· < ·) :=
        List.pairwise_cons.mpr ⟨hall, hs⟩
      simpa [place, hlt, names] using hgoal
    · have hkn : k < name := lt_of_le_of_ne (not_lt.mp hlt) hk
      have hall : ∀ x ∈ names (place tl name v), k < x := by
        intro x hx
        rcases (mem_names_place tl name x v).mp hx with e | e
        · rw [e]
          exact hkn
        · exact hs2.1 x e
      have hgoal : (k :: names (place tl name v)).Pairwise (· < ·) :=
        List.pairwise_cons.mpr ⟨hall, ih hs2.2 htl⟩
      simpa [place, hlt, names] using hgoal

theorem names_insert_sorted (m : Registry) (name : String) (v : Stopwatch.PerformanceData)
    (hs : (names m).Pairwise (· < ·)) : (names (insert m name v)).Pairwise (· < ·) := by
  cases h : find m name with
  | none =>
    simp only [insert, h]
    exact names_place_sorted m name v hs h
  | some w =>
    simp only [insert, h]
    exact hs

end Registry

namespace Stopwatch

theorem join_cons (a : String) (l : List String) : String.join (a :: l) = a ++ String.join l := by
  apply String.ext
  simp

/-- What `report` leaves in the stream is what was there, followed by its own text. -/
theorem report_append (render : LongDouble → String) (sw : Stopwatch) (name : String)
    (output : String) :
    report render sw name output =
      ((report render sw name "").1, output ++ report_text render sw name) := by
  unfold report_text report
  by_cases hactive : sw.active = true
  · cases hrec : Registry.find sw.records_of name with
    | none => simp [hactive]
    | some r =>
      simp only [hactive, Bool.not_true, Bool.false_eq_true, if_false, String.append_assoc,
        String.empty_append]
  · simp [hactive]

theorem report_found (render : LongDouble → String) (sw : Stopwatch) (name : String)
    (output : String) (hactive : sw.active = true)
    (hrec : Registry.find sw.records_of name ≠ none) :
    (report render sw name output).1 = ⟨sw, none⟩ := by
  obtain ⟨r, hr⟩ := Option.ne_none_iff_exists'.mp hrec
  simp [report, hactive, hr]

theorem report_all_loop_eq (render : LongDouble → String) (sw : Stopwatch)
    (hactive : sw.active = true) (ks : List String) :
    ∀ output : String, (∀ k ∈ ks, Registry.find sw.records_of k ≠ none) →
      report_all_loop render sw ks output =
        (⟨sw, none⟩, output ++ String.join (ks.map (report_text render sw))) := by
  induction ks with
  | nil =>
    intro output _
    simp [report_all_loop, String.join]
  | cons k ks ih =>
    intro output hks
    have h1 : report render sw k output = (⟨sw, none⟩, output ++ report_text render sw k) := by
      rw [report_append, report_found render sw k "" hactive (hks k (List.mem_cons_self _ _))]
    have h2 := ih (output ++ report_text render sw k)
      (fun j hj => hks j (List.mem_cons_of_mem _ hj))
    simp only [report_all_loop, h1, h2, List.map_cons, join_cons, String.append_assoc]

/-- The registry `start` leaves: the one it found, the one after the insertion,
or the latter with the record of the name overwritten. -/
theorem start_records (sw : Stopwatch) (clk : Clock) (x : String) :
    (start sw clk x).sw.active = sw.active ∧ (start sw clk x).sw.mode = sw.mode ∧
    ((start sw clk x).sw.records_of = sw.records_of ∨
      (start sw clk x).sw.records_of = Registry.insert sw.records_of x PerformanceData.new ∨
      ∃ r t, Registry.find (Registry.insert sw.records_of x PerformanceData.new) x = some r ∧
        (start sw clk x).sw.records_of =
          Registry.store (Registry.insert sw.records_of x PerformanceData.new) x
            { r with clock_start := t }) := by
  by_cases hactive : sw.active = true
  · cases hf : Registry.find (Registry.insert sw.records_of x PerformanceData.new) x with
    | none => exact absurd hf (Registry.find_insert_ne_none _ _ _)
    | some r =>
      cases ht : take_time sw.mode clk with
      | error e => simp [start, hactive, hf, ht]
      | ok t =>
        refine ⟨?_, ?_, Or.inr (Or.inr ⟨r, t, rfl, ?_⟩)⟩ <;> simp [start, hactive, hf, ht]
  · simp [start, hactive]

/-- The registry `stop` leaves: the one it found, or that one with the record
of the name replaced by its stopped version. -/
theorem stop_records (cps : ℚ) (sw : Stopwatch) (clk : Clock) (x : String) :
    (stop cps sw clk x).sw.active = sw.active ∧ (stop cps sw clk x).sw.mode = sw.mode ∧
    ((stop cps sw clk x).sw.records_of = sw.records_of ∨
      ∃ r lapse, Registry.find sw.records_of x = some r ∧
        (stop cps sw clk x).sw.records_of = Registry.store sw.records_of x (stopped r lapse)) := by
  by_cases hactive : sw.active = true
  · cases ht : take_time sw.mode clk with
    | error e => simp [stop, hactive, ht]
    | ok t =>
      cases hf : Registry.find sw.records_of x with
      | none => simp [stop, hactive, ht, hf]
      | some r =>
        rw [stop_eq cps sw clk x r t hactive ht hf]
        exact ⟨rfl, rfl, Or.inr ⟨r, _, rfl, rfl⟩⟩
  · simp [stop, hactive]

/-- The registry `pause` leaves: the one it found, or that one with the total
of the record of the name replaced. -/
theorem pause_records (sw : Stopwatch) (clk : Clock) (x : String) :
    (pause sw clk x).sw.active = sw.active ∧ (pause sw clk x).sw.mode = sw.mode ∧
    ((pause sw clk x).sw.records_of = sw.records_of ∨
      ∃ r q, Registry.find sw.records_of x = some r ∧
        (pause sw clk x).sw.records_of =
          Registry.store sw.records_of x { r with total_time := q }) := by
  by_cases hactive : sw.active = true
  · cases hf : Registry.find sw.records_of x with
    | none => simp [pause, hactive, hf]
    | some r =>
      refine ⟨?_, ?_, Or.inr ⟨r, r.total_time + ((clk.clock : ℚ) - r.clock_start), rfl, ?_⟩⟩ <;>
        simp [pause, hactive, hf]
  · simp [pause, hactive]

/-- The registry `reset` leaves: the one it found, or that one with the record
of the name zeroed. -/
theorem reset_records (sw : Stopwatch) (x : String) :
    (reset sw x).sw.active = sw.active ∧ (reset sw x).sw.mode = sw.mode ∧
    ((reset sw x).sw.records_of = sw.records_of ∨
      ∃ r, Registry.find sw.records_of x = some r ∧
        (reset sw x).sw.records_of = Registry.store sw.records_of x ⟨0, 0, 0, 0, 0⟩) := by
  by_cases hactive : sw.active = true
  · cases hf : Registry.find sw.records_of x with
    | none => simp [reset, hactive, hf]
    | some r =>
      rw [reset_eq sw x r hactive hf]
      exact ⟨rfl, rfl, Or.inr ⟨r, rfl, rfl⟩⟩
  · simp [reset, hactive]

/-- The registry `reset_all` leaves: the one it found, or that one with the
record of every key zeroed. -/
theorem reset_all_records (sw : Stopwatch) :
    (reset_all sw).sw.active = sw.active ∧ (reset_all sw).sw.mode = sw.mode ∧
    ((reset_all sw).sw.records_of = sw.records_of ∨
      (reset_all sw).sw.records_of =
        Registry.zeroed sw.records_of (Registry.names sw.records_of)) := by
  by_cases hactive : sw.active = true
  · have h : reset_all sw =
        ⟨{ sw with
            records_of := Registry.zeroed sw.records_of (Registry.names sw.records_of) },
          none⟩ := by
      rw [reset_all, if_neg (by simp [hactive])]
      exact reset_all_loop_eq _ sw hactive
        (fun k hk => Registry.find_ne_none_of_mem_names _ k hk)
    rw [h]
    exact ⟨rfl, rfl, Or.inr rfl⟩
  · simp [reset_all, hactive]

/-- Every call keeps the keys of the registry in ascending order. -/
theorem apply_names_sorted (cps : ℚ) (sw : Stopwatch) (c : Call)
    (hs : (Registry.names sw.records_of).Pairwise (· < ·)) :
    (Registry.names (c.apply cps sw).records_of).Pairwise (· < ·) := by
  cases c with
  | init m => exact hs
  | turn_on => exact hs
  | turn_off => exact hs
  | start clk x =>
    rcases (start_records sw clk x).2.2 with h | h | ⟨r, t, _, h⟩
    · simpa [Call.apply, h] using hs
    · simpa [Call.apply, h] using Registry.names_insert_sorted _ x _ hs
    · simpa [Call.apply, h, Registry.names_store] using Registry.names_insert_sorted _ x _ hs
  | stop clk x =>
    rcases (stop_records cps sw clk x).2.2 with h | ⟨r, l, _, h⟩
    · simpa [Call.apply, h] using hs
    · simpa [Call.apply, h, Registry.names_store] using hs
  | pause clk x =>
    rcases (pause_records sw clk x).2.2 with h | ⟨r, q, _, h⟩
    · simpa [Call.apply, h] using hs
    · simpa [Call.apply, h, Registry.names_store] using hs
  | reset x =>
    rcases (reset_records sw x).2.2 with h | ⟨r, _, h⟩
    · simpa [Call.apply, h] using hs
    · simpa [Call.apply, h, Registry.names_store] using hs
  | reset_all =>
    rcases (reset_all_records sw).2.2 with h | h
    · simpa [Call.apply, h] using hs
    · simpa [Call.apply, h, Registry.names_zeroed] using hs

theorem run_names_sorted (cps : ℚ) (calls : List Call) (sw : Stopwatch)
    (hs : (Registry.names sw.records_of).Pairwise (· < ·)) :
    (Registry.names (run cps sw calls).records_of).Pairwise (· < ·) := by
  induction calls generalizing sw with
  | nil => exact hs
  | cons c cs ih => exact ih (c.apply cps sw) (apply_names_sorted cps sw c hs)

/-- C15: with the registry active, for every registry `report_all(sink)`
returns normally with the state as it was, and the text it appends is the
concatenation of the texts `report(name, sink)` appends, one per entry, in the
iteration order of the map; on the empty registry it appends nothing.  In every
state the program can reach from its initial one, that iteration order is the
ascending order of the names. -/
theorem report_all_reports_each (render : LongDouble → String) (sw : Stopwatch)
    (output : String) (hactive : sw.active = true) :
    report_all render sw output =
      (⟨sw, none⟩, output ++
        String.join ((Registry.names sw.records_of).map (report_text render sw))) ∧
    (sw.records_of = [] → report_all render sw output = (⟨sw, none⟩, output)) ∧
    (∀ (cps : ℚ) (calls : List Call), sw = run cps initial calls →
      (Registry.names sw.records_of).Pairwise (· < ·)) := by
  have h : report_all render sw output =
      (⟨sw, none⟩, output ++
        String.join ((Registry.names sw.records_of).map (report_text render sw))) := by
    rw [report_all, if_neg (by simp [hactive])]
    exact report_all_loop_eq render sw hactive _ output
      (fun k hk => Registry.find_ne_none_of_mem_names _ k hk)
  refine ⟨h, ?_, ?_⟩
  · intro hempty
    rw [h, hempty]
    simp [Registry.names, String.join]
  · intro cps calls hrun
    rw [hrun]
    exact run_names_sorted cps calls initial (by simp [initial, Registry.names])

/-- Witness of C15: with two entries the text of `report_all` is the report of
"a" followed by the report of "b", and this registry, reached by starting "b"
and then "a", iterates in ascending order. -/
theorem report_all_reports_each_witness :
    report_all (fun _ => "#")
        ⟨[("a", ⟨2, 0, 0, 0, 0⟩), ("b", ⟨1, 0, 0, 0, 0⟩)], true, StopwatchMode.REAL_TIME⟩ "log:"
      = (⟨⟨[("a", ⟨2, 0, 0, 0, 0⟩), ("b", ⟨1, 0, 0, 0, 0⟩)], true, StopwatchMode.REAL_TIME⟩,
          none⟩,
        "log:" ++ String.join
          [report_text (fun _ => "#")
              ⟨[("a", ⟨2, 0, 0, 0, 0⟩), ("b", ⟨1, 0, 0, 0, 0⟩)], true,
                StopwatchMode.REAL_TIME⟩ "a",
            report_text (fun _ => "#")
              ⟨[("a", ⟨2, 0, 0, 0, 0⟩), ("b", ⟨1, 0, 0, 0, 0⟩)], true,
                StopwatchMode.REAL_TIME⟩ "b"]) ∧
    (Registry.names [("a", ⟨2, 0, 0, 0, 0⟩), ("b", ⟨1, 0, 0, 0, 0⟩)]).Pairwise (· < ·) := by
  have h := report_all_reports_each (fun _ => "#")
    ⟨[("a", ⟨2, 0, 0, 0, 0⟩), ("b", ⟨1, 0, 0, 0, 0⟩)], true, StopwatchMode.REAL_TIME⟩ "log:" rfl
  refine ⟨?_, ?_⟩
  · rw [h.1]
    simp [Registry.names]
  · exact h.2.2 1000000
      [Call.init StopwatchMode.REAL_TIME, Call.start ⟨0, 1, 0⟩ "b", Call.start ⟨0, 2, 0⟩ "a"]
      (by norm_num [run, Call.apply, init, initial, start, take_time, real_time,
        Registry.insert, Registry.find, Registry.place, Registry.store, PerformanceData.new])

end Stopwatch

/-! ## The invariant `min_time ≤ max_time` -/

namespace Registry

theorem mem_store (m : Registry) (name : String) (v : Stopwatch.PerformanceData)
    (e : String × Stopwatch.PerformanceData) (h : e ∈ store m name v) : e ∈ m ∨ e.2 = v := by
  induction m with
  | nil => simp [store] at h
  | cons hd tl ih =>
    obtain ⟨k, u⟩ := hd
    by_cases hk : k = name
    · simp only [store, hk, if_true, List.mem_cons] at h
      rcases h with h | h
      · right
        rw [h]
      · left
        exact List.mem_cons_of_mem _ h
    · simp only [store, hk, if_false, List.mem_cons] at h
      rcases h with h | h
      · left
        rw [h]
        exact List.mem_cons_self _ _
      · rcases ih h with h2 | h2
        · left
          exact List.mem_cons_of_mem _ h2
        · right
          exact h2

theorem mem_place (m : Registry) (name : String) (v : Stopwatch.PerformanceData)
    (e : String × Stopwatch.PerformanceData) (h : e ∈ place m name v) :
    e = (name, v) ∨ e ∈ m := by
  induction m with
  | nil => simpa [place] using h
  | cons hd tl ih =>
    obtain ⟨k, u⟩ := hd
    by_cases hlt : name < k
    · simpa [place, hlt] using h
    · simp only [place, hlt, if_false, List.mem_cons] at h
      rcases h with h | h
      · right
        rw [h]
        exact List.mem_cons_self _ _
      · rcases ih h with h2 | h2
        · left
          exact h2
        · right
          exact List.mem_cons_of_mem _ h2

theorem mem_insert (m : Registry) (name : String) (v : Stopwatch.PerformanceData)
    (e : String × Stopwatch.PerformanceData) (h : e ∈ insert m name v) :
    e = (name, v) ∨ e ∈ m := by
  cases hf : find m name with
  | none =>
    simp only [insert, hf] at h
    exact mem_place m name v e h
  | some w =>
    simp only [insert, hf] at h
    exact Or.inr h

theorem mem_of_find (m : Registry) (name : String) (r : Stopwatch.PerformanceData)
    (h : find m name = some r) : (name, r) ∈ m := by
  induction m with
  | nil => simp [find] at h
  | cons hd tl ih =>
    obtain ⟨k, u⟩ := hd
    by_cases hk : k = name
    · simp only [find, hk, if_true, Option.some.injEq] at h
      simp [hk, h]
    · simp only [find, hk, if_false] at h
      exact List.mem_cons_of_mem _ (ih h)

theorem mem_zeroed (ks : List String) (m : Registry)
    (e : String × Stopwatch.PerformanceData) (h : e ∈ zeroed m ks) :
    e ∈ m ∨ e.2 = ⟨0, 0, 0, 0, 0⟩ := by
  induction ks generalizing m with
  | nil => exact Or.inl h
  | cons k ks ih =>
    have h2 : e ∈ zeroed (store m k ⟨0, 0, 0, 0, 0⟩) ks := by
      simpa [zeroed] using h
    rcases ih _ h2 with h3 | h3
    · exact mem_store m k _ e h3
    · exact Or.inr h3

end Registry

namespace Stopwatch

theorem stopped_min_le_max (r : PerformanceData) (lapse : ℚ)
    (h : r.min_time ≤ r.max_time) : (stopped r lapse).min_time ≤ (stopped r lapse).max_time := by
  simp only [stopped]
  by_cases h1 : lapse ≤ r.min_time ∨ r.min_time = 0
  · by_cases h2 : lapse ≥ r.max_time
    · simp [h1, h2]
    · simp only [h1, h2, if_true, if_false]
      exact le_of_lt (not_le.mp h2)
  · by_cases h2 : lapse ≥ r.max_time
    · simp only [h1, h2, if_true, if_false]
      exact le_trans h h2
    · simp only [h1, h2, if_false]
      exact h

/-- Every call keeps `min_time ≤ max_time` in every record. -/
theorem apply_min_le_max (cps : ℚ) (sw : Stopwatch) (c : Call)
    (hinv : ∀ e ∈ sw.records_of, e.2.min_time ≤ e.2.max_time) :
    ∀ e ∈ (c.apply cps sw).records_of, e.2.min_time ≤ e.2.max_time := by
  have hins : ∀ (x : String), ∀ e ∈ Registry.insert sw.records_of x PerformanceData.new,
      e.2.min_time ≤ e.2.max_time := by
    intro x e he
    rcases Registry.mem_insert _ _ _ e he with h | h
    · rw [h]
      simp [PerformanceData.new]
    · exact hinv e h
  intro e he
  cases c with
  | init m => exact hinv e he
  | turn_on => exact hinv e he
  | turn_off => exact hinv e he
  | start clk x =>
    simp only [Call.apply] at he
    rcases (start_records sw clk x).2.2 with h | h | ⟨r, t, hr, h⟩
    · rw [h] at he
      exact hinv e he
    · rw [h] at he
      exact hins x e he
    · rw [h] at he
      rcases Registry.mem_store _ _ _ e he with h2 | h2
      · exact hins x e h2
      · rw [h2]
        exact hins x _ (Registry.mem_of_find _ _ _ hr)
  | stop clk x =>
    simp only [Call.apply] at he
    rcases (stop_records cps sw clk x).2.2 with h | ⟨r, l, hr, h⟩
    · rw [h] at he
      exact hinv e he
    · rw [h] at he
      rcases Registry.mem_store _ _ _ e he with h2 | h2
      · exact hinv e h2
      · rw [h2]
        exact stopped_min_le_max r l (hinv _ (Registry.mem_of_find _ _ _ hr))
  | pause clk x =>
    simp only [Call.apply] at he
    rcases (pause_records sw clk x).2.2 with h | ⟨r, q, hr, h⟩
    · rw [h] at he
      exact hinv e he
    · rw [h] at he
      rcases Registry.mem_store _ _ _ e he with h2 | h2
      · exact hinv e h2
      · rw [h2]
        exact hinv _ (Registry.mem_of_find _ _ _ hr)
  | reset x =>
    simp only [Call.apply] at he
    rcases (reset_records sw x).2.2 with h | ⟨r, _, h⟩
    · rw [h] at he
      exact hinv e he
    · rw [h] at he
      rcases Registry.mem_store _ _ _ e he with h2 | h2
      · exact hinv e h2
      · rw [h2]
  | reset_all =>
    simp only [Call.apply] at he
    rcases (reset_all_records sw).2.2 with h | h
    · rw [h] at he
      exact hinv e he
    · rw [h] at he
      rcases Registry.mem_zeroed _ _ e he with h2 | h2
      · exact hinv e h2
      · rw [h2]

theorem run_min_le_max (cps : ℚ) (calls : List Call) (sw : Stopwatch)
    (hinv : ∀ e ∈ sw.records_of, e.2.min_time ≤ e.2.max_time) :
    ∀ e ∈ (run cps sw calls).records_of, e.2.min_time ≤ e.2.max_time := by
  induction calls generalizing sw with
  | nil => exact hinv
  | cons c cs ih => exact ih (c.apply cps sw) (apply_min_le_max cps sw c hinv)

/-- C16: starting from the empty registry of the initial state, after every
finite sequence of `init`, `turn_on`, `turn_off`, `start`, `stop`, `pause`,
`reset` and `reset_all` calls, failed ones included, with arbitrary names and
clock readings, every record of the registry has `min_time ≤ max_time`. -/
theorem min_le_max_invariant (cps : ℚ) (calls : List Call) :
    ∀ e ∈ (run cps initial calls).records_of, e.2.min_time ≤ e.2.max_time :=
  run_min_le_max cps calls initial (by simp [initial])

/-- Witness of C16: after a failed `stop`, a `start` at 5 and a `stop` at 3
(lapse -2), the record of "x" is `(5, -2, -2, 0, 1)`, with minimum -2 below
maximum 0. -/
theorem min_le_max_invariant_witness :
    (("x", ⟨5, -2, -2, 0, 1⟩) : String × PerformanceData) ∈
      (run 1000000 initial
        [Call.stop ⟨0, 1, 0⟩ "x", Call.init StopwatchMode.REAL_TIME,
          Call.start ⟨0, 5, 0⟩ "x", Call.stop ⟨0, 3, 0⟩ "x"]).records_of ∧
    (-2 : ℚ) ≤ 0 :=
  ⟨by norm_num [run, Call.apply, init, initial, start, stop, take_time, real_time,
      Registry.insert, Registry.find, Registry.place, Registry.store, PerformanceData.new],
    min_le_max_invariant 1000000
      [Call.stop ⟨0, 1, 0⟩ "x", Call.init StopwatchMode.REAL_TIME,
        Call.start ⟨0, 5, 0⟩ "x", Call.stop ⟨0, 3, 0⟩ "x"]
      ("x", ⟨5, -2, -2, 0, 1⟩)
      (by norm_num [run, Call.apply, init, initial, start, stop, take_time, real_time,
        Registry.insert, Registry.find, Registry.place, Registry.store, PerformanceData.new])⟩

end Stopwatch

/-! ## Isolation between names, and the record a failed `start` leaves -/

namespace Registry

theorem find_insert_other (m : Registry) (name other : String) (v : Stopwatch.PerformanceData)
    (h : other ≠ name) : find (insert m name v) other = find m other := by
  cases hf : find m name with
  | none => simp [insert, hf, find_place_other m name other v h]
  | some w => simp [insert, hf]

theorem mem_names_insert (m : Registry) (name n : String) (v : Stopwatch.PerformanceData)
    (h : n ∈ names m) : n ∈ names (insert m name v) := by
  cases hf : find m name with
  | none =>
    simp only [insert, hf]
    exact (mem_names_place m name n v).mpr (Or.inr h)
  | some w =>
    simp only [insert, hf]
    exact h

end Registry

namespace Stopwatch

/-- C17: for every state and any two distinct names `x` and `y`, each of
`start(x)`, `stop(x)`, `pause(x)` and `reset(x)`, whether it returns or throws,
leaves the lookup of `y` (its presence and its five fields) as it was, keeps
every name the registry had, and keeps the mode and the flag. -/
theorem per_name_isolation (cps : ℚ) (sw : Stopwatch) (clk : Clock) (x y : String)
    (hxy : x ≠ y) :
    (Registry.find (start sw clk x).sw.records_of y = Registry.find sw.records_of y ∧
      (∀ n ∈ Registry.names sw.records_of, n ∈ Registry.names (start sw clk x).sw.records_of) ∧
      (start sw clk x).sw.mode = sw.mode ∧ (start sw clk x).sw.active = sw.active) ∧
    (Registry.find (stop cps sw clk x).sw.records_of y = Registry.find sw.records_of y ∧
      (∀ n ∈ Registry.names sw.records_of,
        n ∈ Registry.names (stop cps sw clk x).sw.records_of) ∧
      (stop cps sw clk x).sw.mode = sw.mode ∧ (stop cps sw clk x).sw.active = sw.active) ∧
    (Registry.find (pause sw clk x).sw.records_of y = Registry.find sw.records_of y ∧
      (∀ n ∈ Registry.names sw.records_of, n ∈ Registry.names (pause sw clk x).sw.records_of) ∧
      (pause sw clk x).sw.mode = sw.mode ∧ (pause sw clk x).sw.active = sw.active) ∧
    (Registry.find (reset sw x).sw.records_of y = Registry.find sw.records_of y ∧
      (∀ n ∈ Registry.names sw.records_of, n ∈ Registry.names (reset sw x).sw.records_of) ∧
      (reset sw x).sw.mode = sw.mode ∧ (reset sw x).sw.active = sw.active) := by
  have hyx : y ≠ x := fun e => hxy e.symm
  refine ⟨?_, ?_, ?_, ?_⟩
  · obtain ⟨hact, hmode, hrec⟩ := start_records sw clk x
    rcases hrec with h | h | ⟨r, t, _, h⟩
    · rw [h]
      exact ⟨rfl, fun n hn => hn, hmode, hact⟩
    · rw [h]
      exact ⟨Registry.find_insert_other _ _ _ _ hyx,
        fun n hn => Registry.mem_names_insert _ _ _ _ hn, hmode, hact⟩
    · rw [h, Registry.names_store, Registry.find_store_other _ _ _ _ hyx]
      exact ⟨Registry.find_insert_other _ _ _ _ hyx,
        fun n hn => Registry.mem_names_insert _ _ _ _ hn, hmode, hact⟩
  · obtain ⟨hact, hmode, hrec⟩ := stop_records cps sw clk x
    rcases hrec with h | ⟨r, l, _, h⟩
    · rw [h]
      exact ⟨rfl, fun n hn => hn, hmode, hact⟩
    · rw [h, Registry.names_store, Registry.find_store_other _ _ _ _ hyx]
      exact ⟨rfl, fun n hn => hn, hmode, hact⟩
  · obtain ⟨hact, hmode, hrec⟩ := pause_records sw clk x
    rcases hrec with h | ⟨r, q, _, h⟩
    · rw [h]
      exact ⟨rfl, fun n hn => hn, hmode, hact⟩
    · rw [h, Registry.names_store, Registry.find_store_other _ _ _ _ hyx]
      exact ⟨rfl, fun n hn => hn, hmode, hact⟩
  · obtain ⟨hact, hmode, hrec⟩ := reset_records sw x
    rcases hrec with h | ⟨r, _, h⟩
    · rw [h]
      exact ⟨rfl, fun n hn => hn, hmode, hact⟩
    · rw [h, Registry.names_store, Registry.find_store_other _ _ _ _ hyx]
      exact ⟨rfl, fun n hn => hn, hmode, hact⟩

/-- Witness of C17: starting, stopping, pausing or resetting "x" leaves the
record `(1, 2, 3, 4, 5)` of "y" as it was. -/
theorem per_name_isolation_witness :
    Registry.find
      (start ⟨[("x", ⟨9, 8, 7, 6, 5⟩), ("y", ⟨1, 2, 3, 4, 5⟩)], true, StopwatchMode.CPU_TIME⟩
        ⟨42, 0, 0⟩ "x").sw.records_of "y" = some ⟨1, 2, 3, 4, 5⟩ ∧
    Registry.find
      (stop 1000000
        ⟨[("x", ⟨9, 8, 7, 6, 5⟩), ("y", ⟨1, 2, 3, 4, 5⟩)], true, StopwatchMode.CPU_TIME⟩
        ⟨42, 0, 0⟩ "x").sw.records_of "y" = some ⟨1, 2, 3, 4, 5⟩ ∧
    Registry.find
      (pause ⟨[("x", ⟨9, 8, 7, 6, 5⟩), ("y", ⟨1, 2, 3, 4, 5⟩)], true, StopwatchMode.CPU_TIME⟩
        ⟨42, 0, 0⟩ "x").sw.records_of "y" = some ⟨1, 2, 3, 4, 5⟩ ∧
    Registry.find
      (reset ⟨[("x", ⟨9, 8, 7, 6, 5⟩), ("y", ⟨1, 2, 3, 4, 5⟩)], true, StopwatchMode.CPU_TIME⟩
        "x").sw.records_of "y" = some ⟨1, 2, 3, 4, 5⟩ := by
  have h := per_name_isolation 1000000
    ⟨[("x", ⟨9, 8, 7, 6, 5⟩), ("y", ⟨1, 2, 3, 4, 5⟩)], true, StopwatchMode.CPU_TIME⟩
    ⟨42, 0, 0⟩ "x" "y" (by decide)
  have hy : Registry.find [("x", (⟨9, 8, 7, 6, 5⟩ : PerformanceData)), ("y", ⟨1, 2, 3, 4, 5⟩)] "y"
      = some ⟨1, 2, 3, 4, 5⟩ := by
    simp [Registry.find]
  exact ⟨h.1.1.trans hy, h.2.1.1.trans hy, h.2.2.1.1.trans hy, h.2.2.2.1.trans hy⟩

/-- C18: with the registry active, the mode `NONE` and no record for the name
(so that `reset` and `pause` of it throw `NotFound`), `start(name)` throws
`NotInitialized` and yet leaves a record for the name with every field zero;
the records of all names that had one are as they were, and a following
`reset(name)` or `pause(name)` returns normally instead of throwing `NotFound`. -/
theorem failed_start_leaves_record (sw : Stopwatch) (clk clk2 : Clock) (name : String)
    (hactive : sw.active = true) (hmode : sw.mode = StopwatchMode.NONE)
    (habsent : Registry.find sw.records_of name = none) :
    (reset sw name).thrown = some NotFound ∧
    (pause sw clk2 name).thrown = some NotFound ∧
    (start sw clk name).thrown = some NotInitialized ∧
    Registry.find (start sw clk name).sw.records_of name = some ⟨0, 0, 0, 0, 0⟩ ∧
    (∀ (y : String) (r : PerformanceData), Registry.find sw.records_of y = some r →
      Registry.find (start sw clk name).sw.records_of y = some r) ∧
    (reset (start sw clk name).sw name).thrown = none ∧
    (pause (start sw clk name).sw clk2 name).thrown = none := by
  have hfind : Registry.find (Registry.insert sw.records_of name PerformanceData.new) name
      = some PerformanceData.new := Registry.find_insert_absent _ _ _ habsent
  have hstart : start sw clk name =
      ⟨{ sw with records_of := Registry.insert sw.records_of name PerformanceData.new },
        some NotInitialized⟩ := by
    simp [start, hactive, hfind, take_time, hmode]
  rw [hstart]
  refine ⟨?_, ?_, rfl, hfind, ?_, ?_, ?_⟩
  · simp [reset, hactive, habsent]
  · simp [pause, hactive, habsent]
  · intro y r hy
    have hne : y ≠ name := by
      intro e
      rw [e, habsent] at hy
      exact Option.noConfusion hy
    show Registry.find (Registry.insert sw.records_of name PerformanceData.new) y = some r
    rw [Registry.find_insert_other _ _ _ _ hne, hy]
  · simp [reset, hactive, hfind]
  · simp [pause, hactive, hfind]

/-- Witness of C18: in the initial state extended with a record for "a", a
`start("x")` throws `NotInitialized`, leaves a zero record for "x" and the
record of "a" as it was. -/
theorem failed_start_leaves_record_witness :
    (start ⟨[("a", ⟨1, 2, 3, 4, 5⟩)], true, StopwatchMode.NONE⟩ ⟨7, 0, 0⟩ "x").thrown
      = some NotInitialized ∧
    Registry.find
      (start ⟨[("a", ⟨1, 2, 3, 4, 5⟩)], true, StopwatchMode.NONE⟩
        ⟨7, 0, 0⟩ "x").sw.records_of "x" = some ⟨0, 0, 0, 0, 0⟩ ∧
    Registry.find
      (start ⟨[("a", ⟨1, 2, 3, 4, 5⟩)], true, StopwatchMode.NONE⟩
        ⟨7, 0, 0⟩ "x").sw.records_of "a" = some ⟨1, 2, 3, 4, 5⟩ ∧
    (pause (start ⟨[("a", ⟨1, 2, 3, 4, 5⟩)], true, StopwatchMode.NONE⟩ ⟨7, 0, 0⟩ "x").sw
      ⟨9, 0, 0⟩ "x").thrown = none := by
  have h := failed_start_leaves_record ⟨[("a", ⟨1, 2, 3, 4, 5⟩)], true, StopwatchMode.NONE⟩
    ⟨7, 0, 0⟩ ⟨9, 0, 0⟩ "x" rfl rfl (by simp [Registry.find])
  exact ⟨h.2.2.1, h.2.2.2.1, h.2.2.2.2.1 "a" ⟨1, 2, 3, 4, 5⟩ (by simp [Registry.find]),
    h.2.2.2.2.2.2⟩

end Stopwatch
